import Mathlib

/-
  Verification development for the cleaning and reconciliation pipeline of the
  e-commerce data project (source file clean__transform__pipeline.py).

  The pandas program is shallowly embedded: a DataFrame is a list of row
  records whose cells carry the dynamic value type PVal below, mirroring the
  values that actually flow through the pipeline (strings, float NaN, pandas
  NaT, pandas Int64 NA, integers, floats, timestamps).  Python floats are
  modelled as the exact rational number denoted by their shortest decimal
  representation (the pipeline only ever creates floats by parsing decimal
  strings or by quantizing to two decimal places, so this bridge is exact for
  every value the program manipulates).  External library calls (phonenumbers,
  pandas datetime parsing) are modelled where indicated in doc comments.
-/

/-- A UTC timestamp at second precision, as produced by the date parser.
The parser below only constructs values whose fields are in calendar range. -/
structure Timestamp where
  year : Nat
  month : Nat
  day : Nat
  hour : Nat
  minute : Nat
  second : Nat
deriving DecidableEq

/-- Encoding of a timestamp as a natural number; for field values in calendar
range (month at most 12, day at most 31, hour below 24, minute and second
below 60) this encoding is strictly monotone in chronological order, so it
serves as the sort key corresponding to comparing pandas datetimes. -/
def Timestamp.enc (t : Timestamp) : Nat :=
  ((((t.year * 13 + t.month) * 32 + t.day) * 25 + t.hour) * 61 + t.minute) * 61 + t.second

/-- Left-pad the decimal rendering of a natural number with zeros to width w. -/
def padNum (w n : Nat) : String :=
  String.mk (List.replicate (w - (toString n).length) '0') ++ toString n

/-- The string rendering pandas uses for a UTC Timestamp inside astype(str),
for example "2023-01-05 00:00:00+00:00". -/
def tsStr (t : Timestamp) : String :=
  padNum 4 t.year ++ "-" ++ padNum 2 t.month ++ "-" ++ padNum 2 t.day ++ " " ++
  padNum 2 t.hour ++ ":" ++ padNum 2 t.minute ++ ":" ++ padNum 2 t.second ++ "+00:00"

/-- The whitespace characters of the Python regex class backslash-s (ASCII). -/
def isSpaceA (c : Char) : Bool :=
  c == ' ' || c == '\t' || c == '\n' || c == '\r' || c == '\x0b' || c == '\x0c'

/-- ASCII digit test (models the Python regex class backslash-d for the ASCII
strings handled by the pipeline). -/
def isDigitA (c : Char) : Bool :=
  decide (48 ≤ c.toNat) && decide (c.toNat ≤ 57)

/-- ASCII upper-casing of one character, as Python str.title applies to the
first letter of each alphabetic run (ASCII fragment of the Unicode rule). -/
def upChar (c : Char) : Char :=
  if 97 ≤ c.toNat ∧ c.toNat ≤ 122 then Char.ofNat (c.toNat - 32) else c

/-- ASCII lower-casing of one character, as Python str.lower and the
non-initial positions of str.title apply (ASCII fragment). -/
def lowChar (c : Char) : Char :=
  if 65 ≤ c.toNat ∧ c.toNat ≤ 90 then Char.ofNat (c.toNat + 32) else c

/-- ASCII cased-letter test, the word-boundary test of Python str.title
(ASCII fragment of the Unicode rule). -/
def isAlphaA (c : Char) : Bool :=
  (decide (65 ≤ c.toNat) && decide (c.toNat ≤ 90)) ||
    (decide (97 ≤ c.toNat) && decide (c.toNat ≤ 122))

/-- State machine of Python str.title (ASCII fragment): upper-case a letter
that follows a non-letter, lower-case a letter that follows a letter. -/
def titleGo (prevAlpha : Bool) : List Char → List Char
  | [] => []
  | c :: cs =>
    if isAlphaA c then
      (if prevAlpha then lowChar c else upChar c) :: titleGo true cs
    else
      c :: titleGo false cs

/-- Python str.title (pandas Series.str.title), ASCII fragment. -/
def pyTitle (s : String) : String :=
  String.mk (titleGo false s.data)

/-- One-sided whitespace strip followed by reversal; composing it with itself
gives Python str.strip. -/
def trimHalf (l : List Char) : List Char :=
  (l.dropWhile isSpaceA).reverse

/-- Python str.strip (both ends, whitespace). -/
def stripA (s : String) : String :=
  String.mk (trimHalf (trimHalf s.data))

/-- Python str.lower, ASCII fragment. -/
def lowStr (s : String) : String :=
  String.mk (s.data.map lowChar)

/-- Removal of every whitespace character, as re.sub of backslash-s-plus with
the empty replacement does. -/
def removeWs (s : String) : String :=
  String.mk (s.data.filter (fun c => !isSpaceA c))

/-- The dynamic cell values flowing through the pandas pipeline:
nan is the float NaN missing marker, naT is pandas NaT, intNA is the pandas
Int64 missing marker, and s, i, f, ts are strings, int64 values, floats
(modelled as the exact rational of their shortest decimal representation)
and UTC timestamps. -/
inductive PVal where
  | nan : PVal
  | naT : PVal
  | intNA : PVal
  | s : String → PVal
  | i : Int → PVal
  | f : Rat → PVal
  | ts : Timestamp → PVal
deriving DecidableEq

/-- Smallest k below 60 such that ten to the k is divisible by d, if any. -/
def tenPowDvd (d : Nat) : Option Nat :=
  (List.range 60).find? (fun k => 10 ^ k % d == 0)

/-- Decimal rendering of a rational whose denominator divides a power of ten,
matching the shortest-representation printing of the Python float it models
(an integer-valued float prints with a trailing ".0"). -/
def ratToDecStr (q : Rat) : String :=
  let sgn := if q < 0 then "-" else ""
  let n := q.num.natAbs
  match tenPowDvd q.den with
  | some 0 => sgn ++ toString n ++ ".0"
  | some k =>
    let m := n * (10 ^ k / q.den)
    sgn ++ toString (m / 10 ^ k) ++ "." ++ padNum k (m % 10 ^ k)
  | none => sgn ++ toString n ++ "/" ++ toString q.den

/-- Python str applied to a cell value: str of float NaN is "nan", str of
pandas NaT is "NaT", str of the Int64 missing marker is "<NA>"; strings,
integers, floats and timestamps render as in Python. -/
def pyStr : PVal → String
  | PVal.nan => "nan"
  | PVal.naT => "NaT"
  | PVal.intNA => "<NA>"
  | PVal.s v => v
  | PVal.i n => toString n
  | PVal.f q => ratToDecStr q
  | PVal.ts t => tsStr t

/-- Python truthiness of a cell value: the empty string and numeric zero are
falsy; float NaN, NaT and every other value occurring here are truthy. -/
def pyTruthyb : PVal → Bool
  | PVal.s v => !(decide (v = ""))
  | PVal.i n => !(decide (n = 0))
  | PVal.f q => !(decide (q = 0))
  | _ => true

/-- Missing-value test, as pandas isna and dropna see a cell. -/
def isNAb : PVal → Bool
  | PVal.nan => true
  | PVal.naT => true
  | PVal.intNA => true
  | _ => false

/-- Value of a list of ASCII digit characters read in base ten. -/
def digitsVal (l : List Char) : Nat :=
  l.foldl (fun a c => a * 10 + (c.toNat - 48)) 0

/-- Parse a decimal literal (optional sign, integer digits, optional fraction)
into an exact rational, as Python float and Decimal constructors read the
numeric strings handled by the pipeline; None on anything non-numeric.
Exponent notation and the words inf and nan are outside the fragment the
pipeline data exercises and parse as non-numeric here. -/
def parseDecimal (w : String) : Option Rat :=
  let l := (stripA w).data
  let sl : Int × List Char :=
    match l with
    | '+' :: r => (1, r)
    | '-' :: r => (-1, r)
    | r => (1, r)
  let ip := sl.2.takeWhile isDigitA
  let r1 := sl.2.drop ip.length
  match r1 with
  | [] =>
    if ip.isEmpty then none
    else some ((sl.1 : Rat) * (digitsVal ip : Rat))
  | '.' :: fr =>
    if fr.all isDigitA && !(ip.isEmpty && fr.isEmpty) then
      some ((sl.1 : Rat) * ((digitsVal ip * 10 ^ fr.length + digitsVal fr : Nat) : Rat) / ((10 ^ fr.length : Nat) : Rat))
    else none
  | _ => none

/-- Number of days in a month of a given year (proleptic Gregorian). -/
def daysInMonth (y m : Nat) : Nat :=
  if m = 2 then
    if y % 4 = 0 && (y % 100 != 0 || y % 400 = 0) then 29 else 28
  else if m = 4 || m = 6 || m = 9 || m = 11 then 30
  else 31

/-- Parse a list of exactly n digit characters. -/
def takeDigits (n : Nat) (l : List Char) : Option (Nat × List Char) :=
  let d := l.take n
  if d.length = n && d.all isDigitA then some (digitsVal d, l.drop n) else none

/-- Parse the trailing timezone suffix of the ISO forms used by the data:
nothing, Z, or +00:00. -/
def tzOk (l : List Char) : Bool :=
  l == [] || l == ['Z'] || l == ['+', '0', '0', ':', '0', '0']

/-- Parse the time-of-day part HH:MM:SS with optional fractional seconds
(fraction discarded at the second precision of the model) and timezone. -/
def parseTimePart (l : List Char) : Option (Nat × Nat × Nat) :=
  match takeDigits 2 l with
  | none => none
  | some (hh, l1) =>
    match l1 with
    | ':' :: l2 =>
      match takeDigits 2 l2 with
      | none => none
      | some (mi, l3) =>
        match l3 with
        | ':' :: l4 =>
          match takeDigits 2 l4 with
          | none => none
          | some (ss, l5) =>
            let l6 := match l5 with
              | '.' :: r => r.dropWhile isDigitA
              | r => r
            if hh < 24 && mi < 60 && ss < 60 && tzOk l6 then some (hh, mi, ss) else none
        | _ => none
    | _ => none

/-- Modelled from the spec: the source delegates datetime parsing to the
external pandas to_datetime (utc=True), which is not part of this repository;
the spec fixes the interchange format as YYYY-MM-DDTHH:MM:SSZ (UTC, second
precision) and the generator writes YYYY-MM-DD dates and ISO timestamps, so
the model parses exactly these ISO forms (date, or date plus T or space plus
time, optional fractional seconds, optional Z or +00:00 offset), with
calendar validation; every other string is a parse failure. -/
def parseISO (w : String) : Option Timestamp :=
  let l := w.data
  match takeDigits 4 l with
  | none => none
  | some (y, l1) =>
    match l1 with
    | '-' :: l2 =>
      match takeDigits 2 l2 with
      | none => none
      | some (mo, l3) =>
        match l3 with
        | '-' :: l4 =>
          match takeDigits 2 l4 with
          | none => none
          | some (d, l5) =>
            if 1 ≤ mo && mo ≤ 12 && 1 ≤ d && d ≤ daysInMonth y mo then
              match l5 with
              | [] => some ⟨y, mo, d, 0, 0, 0⟩
              | 'T' :: l6 =>
                match parseTimePart l6 with
                | some (hh, mi, ss) => some ⟨y, mo, d, hh, mi, ss⟩
                | none => none
              | ' ' :: l6 =>
                match parseTimePart l6 with
                | some (hh, mi, ss) => some ⟨y, mo, d, hh, mi, ss⟩
                | none => none
              | _ => none
            else none
        | _ => none
    | _ => none

/-- Rounding of y to the nearest integer, halves away from zero on the
nonnegative rationals it is applied to: the floor of y plus one half,
computed on the numerator and denominator (integer division by a positive
denominator is the floor). -/
def halfUpUnits (y : Rat) : Int :=
  (2 * y.num + (y.den : Int)) / (2 * (y.den : Int))

/-- Quantization of an exact decimal to two decimal places with the
ROUND_HALF_UP rule of Python Decimal: halves round away from zero. -/
def money2 (q : Rat) : Rat :=
  if q < 0 then -(((halfUpUnits (100 * (-q)) : Int) : Rat) / 100)
  else ((halfUpUnits (100 * q) : Int) : Rat) / 100

/-- money_round from the source: Decimal(str(x)).quantize(two decimals,
ROUND_HALF_UP) under a try, float NaN on any failure.  str of a float
re-reads to the exact rational the float models, so the float and int cases
quantize directly; a string goes through the decimal parser; NaN, NaT, the
Int64 missing marker and timestamps stringify to non-numeric text (or make
quantize raise, for Decimal NaN), so they return NaN. -/
def money_round (v : PVal) : PVal :=
  match v with
  | PVal.f q => PVal.f (money2 q)
  | PVal.i n => PVal.f (money2 (n : Rat))
  | PVal.s w =>
    match parseDecimal w with
    | some q => PVal.f (money2 q)
    | none => PVal.nan
  | _ => PVal.nan

/-- pandas to_numeric with errors coerce on one cell: numeric strings parse
to floats, numbers pass through, everything missing or unparseable becomes
float NaN. -/
def toNumeric (v : PVal) : PVal :=
  match v with
  | PVal.s w =>
    match parseDecimal w with
    | some q => PVal.f q
    | none => PVal.nan
  | PVal.i n => PVal.i n
  | PVal.f q => PVal.f q
  | _ => PVal.nan

/-- pandas to_numeric followed by astype Int64 on one cell: NaN becomes the
Int64 missing marker; integral floats become integers.  (pandas raises on a
non-integral float, aborting the whole run; that abort is outside the claims
and is modelled as the missing marker.) -/
def toNumericInt64 (v : PVal) : PVal :=
  match toNumeric v with
  | PVal.i n => PVal.i n
  | PVal.f q => if q.den = 1 then PVal.i q.num else PVal.intNA
  | _ => PVal.intNA

/-- Truncation toward zero, as numpy casting of float64 to int does. -/
def ratTrunc (q : Rat) : Int :=
  q.num.tdiv (q.den : Int)

/-- The quantity column of clean_orders on one cell: to_numeric with coerce,
fillna(1), astype(int). -/
def quantityClean (v : PVal) : PVal :=
  match toNumeric v with
  | PVal.f q => PVal.i (ratTrunc q)
  | PVal.i n => PVal.i n
  | _ => PVal.i 1

/-- normalize_email from the source: falsy or whitespace-only input gives
float NaN, anything else is stringified, lower-cased and stripped of all
whitespace.  Note the guard tests Python truthiness and the stripped str
rendering, so the float NaN missing marker (truthy, rendering as nan) passes
the guard. -/
def normalize_email (v : PVal) : PVal :=
  if pyTruthyb v = false ∨ stripA (pyStr v) = "" then PVal.nan
  else PVal.s (removeWs (lowStr (pyStr v)))

/-- Keep only digits and plus signs, as the first re.sub of normalize_phone. -/
def phoneCleaned (v : PVal) : String :=
  String.mk ((pyStr v).data.filter (fun c => isDigitA c || c == '+'))

/-- Keep only digits, as the fallback re.sub of normalize_phone. -/
def phoneDigits (v : PVal) : String :=
  String.mk ((pyStr v).data.filter isDigitA)

/-- Modelled from the spec: the source calls the external phonenumbers
library (not part of this repository) to parse with default region IN and,
when the parse succeeds and the number is valid, format it as E.164.  The
model captures the region-IN behaviour on the cleaned digit-and-plus
strings: a valid number is +91 followed by ten digits starting 6 to 9, or
ten such national digits (then prefixed with +91); None covers both a parse
failure and an invalid number, which the source treats identically. -/
def phonelibE164IN (cleaned : String) : Option String :=
  let l := cleaned.data
  let mobile : List Char → Bool := fun d =>
    decide (d.length = 10) && d.all isDigitA &&
      (match d with
       | c :: _ => c == '6' || c == '7' || c == '8' || c == '9'
       | [] => false)
  match l with
  | '+' :: '9' :: '1' :: rest =>
    if mobile rest then some (String.mk ('+' :: '9' :: '1' :: rest)) else none
  | rest =>
    if mobile rest then some (String.mk ('+' :: '9' :: '1' :: rest)) else none

/-- normalize_phone from the source: falsy or whitespace-only input gives
float NaN; otherwise the stringified input is cleaned to digits and plus
signs and handed to the phone library; on a valid parse the E.164 string is
returned, otherwise the bare digits when at least eight remain, else NaN. -/
def normalize_phone (v : PVal) : PVal :=
  if pyTruthyb v = false ∨ stripA (pyStr v) = "" then PVal.nan
  else
    match phonelibE164IN (phoneCleaned v) with
    | some e => PVal.s e
    | none =>
      if 8 ≤ (phoneDigits v).data.length then PVal.s (phoneDigits v)
      else PVal.nan

/-- parse_date_safe from the source: falsy or whitespace-only input gives
NaT; strings go to the datetime parser (a failure is caught and coerced to
NaT); an existing timestamp passes through; NaN, NaT and the Int64 marker
stringify past the guard but coerce to NaT.  (pandas would read a raw int or
float as an epoch offset; such cells never reach this function in the
pipeline and are modelled as NaT.) -/
def parse_date_safe (v : PVal) : PVal :=
  if pyTruthyb v = false ∨ stripA (pyStr v) = "" then PVal.naT
  else
    match v with
    | PVal.s w =>
      match parseISO w with
      | some t => PVal.ts t
      | none => PVal.naT
    | PVal.ts t => PVal.ts t
    | _ => PVal.naT

/-- safe_read_csv on one cell: dtype str with keep_default_na=False and
na_values the empty string, NA and NaN, so exactly those three cell texts
become the float NaN missing marker and every other text stays a string. -/
def safeReadCell (w : String) : PVal :=
  if w = "" ∨ w = "NA" ∨ w = "NaN" then PVal.nan else PVal.s w

/-- astype(str), str.strip, replace of the empty string by NaN, applied to
one cell (the name columns of the customer and product cleaners). -/
def stripReplace (v : PVal) : PVal :=
  if stripA (pyStr v) = "" then PVal.nan else PVal.s (stripA (pyStr v))

/-- astype(str), str.title, replace of the empty string by NaN, applied to
one cell (the city, state, category, brand and shipping_city columns). -/
def titleReplace (v : PVal) : PVal :=
  if pyTitle (pyStr v) = "" then PVal.nan else PVal.s (pyTitle (pyStr v))

/-- A row of the customers table (raw or cleaned; pandas columns are
dynamically typed so both states share this record of cell values). -/
structure CustRow where
  customer_id : PVal
  name : PVal
  email : PVal
  phone : PVal
  city : PVal
  state : PVal
  signup_date : PVal
deriving DecidableEq

/-- A row of the products table. -/
structure ProdRow where
  product_id : PVal
  product_name : PVal
  category : PVal
  brand : PVal
  price : PVal
  stock_quantity : PVal
deriving DecidableEq

/-- A row of the orders table.  order_value is present on input (ignored and
recomputed) and on output. -/
structure OrderRow where
  order_id : PVal
  customer_id : PVal
  product_id : PVal
  quantity : PVal
  order_timestamp : PVal
  payment_method : PVal
  status : PVal
  shipping_city : PVal
  order_value : PVal
deriving DecidableEq

/-- Keep the first element for each key, dropping later elements whose key
was already seen: the recursion of pandas drop_duplicates keep=first, with
the accumulator of already-seen keys explicit. -/
def dedupFirstAux {α κ : Type} (key : α → κ) [DecidableEq κ] : List κ → List α → List α
  | _, [] => []
  | seen, x :: xs =>
    if key x ∈ seen then dedupFirstAux key seen xs
    else x :: dedupFirstAux key (key x :: seen) xs

/-- pandas drop_duplicates with keep=first under the given key. -/
def dedupFirst {α κ : Type} (key : α → κ) [DecidableEq κ] (l : List α) : List α :=
  dedupFirstAux key [] l

/-- Alternative first-occurrence formulation, following the words of the
specification: keep the first row, discard every later row with the same
key, recurse. -/
def firstOcc {α κ : Type} (key : α → κ) [DecidableEq κ] : List α → List α
  | [] => []
  | x :: xs => x :: firstOcc key (xs.filter (fun y => decide (key y ≠ key x)))
termination_by l => l.length
decreasing_by
  simp only [List.length_cons]
  exact Nat.lt_succ_of_le (List.length_filter_le _ _)

/-- Sort key pandas uses for sort_values over a datetime column: NaT compares
after every actual timestamp (the default na_position is last). -/
def dateRank (v : PVal) : WithTop Nat :=
  match v with
  | PVal.ts t => (t.enc : WithTop Nat)
  | _ => ⊤

/-- Row comparison of the customer sort by signup_date. -/
def custLe (a b : CustRow) : Prop :=
  dateRank a.signup_date ≤ dateRank b.signup_date

instance : DecidableRel custLe :=
  fun a b => inferInstanceAs (Decidable (dateRank a.signup_date ≤ dateRank b.signup_date))

instance : IsTotal CustRow custLe :=
  ⟨fun a b => le_total (dateRank a.signup_date) (dateRank b.signup_date)⟩

instance : IsTrans CustRow custLe :=
  ⟨fun _ _ _ hab hbc => le_trans hab hbc⟩

/-- Row comparison of the order sort by order_timestamp. -/
def orderLe (a b : OrderRow) : Prop :=
  dateRank a.order_timestamp ≤ dateRank b.order_timestamp

instance : DecidableRel orderLe :=
  fun a b => inferInstanceAs (Decidable (dateRank a.order_timestamp ≤ dateRank b.order_timestamp))

instance : IsTotal OrderRow orderLe :=
  ⟨fun a b => le_total (dateRank a.order_timestamp) (dateRank b.order_timestamp)⟩

instance : IsTrans OrderRow orderLe :=
  ⟨fun _ _ _ hab hbc => le_trans hab hbc⟩

/-- The column transformations of clean_customers applied to one row. -/
def custTransform (r : CustRow) : CustRow where
  customer_id := toNumericInt64 r.customer_id
  name := stripReplace r.name
  email := normalize_email r.email
  phone := normalize_phone r.phone
  city := titleReplace r.city
  state := titleReplace r.state
  signup_date := parse_date_safe r.signup_date

/-- The dropna(subset=[customer_id, name]) predicate of clean_customers. -/
def custKeptb (r : CustRow) : Bool :=
  !isNAb r.customer_id && !isNAb r.name

/-- The dup_key column of clean_customers: email, filled from phone where
missing, filled from name concatenated with the signup_date rendered by
astype(str) where phone is missing too. -/
def custDupKey (r : CustRow) : PVal :=
  if isNAb r.email then
    if isNAb r.phone then PVal.s (pyStr r.name ++ pyStr r.signup_date)
    else r.phone
  else r.email

/-- clean_customers from the source: transform the columns, drop rows whose
customer_id or name is missing, sort by signup_date ascending (NaT last, the
pandas default na_position), keep the first row per dup_key.  The source
leaves the order of rows with equal dates unspecified (pandas default
quicksort); the model uses the stable insertion sort, which keeps the input
order as the tie-break, the determinization the specification proposes. -/
def clean_customers (df : List CustRow) : List CustRow :=
  dedupFirst custDupKey
    (List.insertionSort custLe ((df.map custTransform).filter custKeptb))

/-- The column transformations of clean_products applied to one row. -/
def prodTransform (r : ProdRow) : ProdRow where
  product_id := toNumericInt64 r.product_id
  product_name := stripReplace r.product_name
  category := titleReplace r.category
  brand := titleReplace r.brand
  price := money_round (toNumeric r.price)
  stock_quantity := toNumericInt64 r.stock_quantity

/-- The dropna(subset=[product_id, product_name]) predicate of clean_products. -/
def prodKeptb (r : ProdRow) : Bool :=
  !isNAb r.product_id && !isNAb r.product_name

/-- clean_products from the source: transform the columns, drop rows whose
product_id or product_name is missing, deduplicate by product_id keeping the
first occurrence (no sort). -/
def clean_products (df : List ProdRow) : List ProdRow :=
  dedupFirst ProdRow.product_id ((df.map prodTransform).filter prodKeptb)

/-- The isin membership test of the referential filters: an Int64 cell passes
when its value is in the valid set; a missing cell never passes. -/
def idInb (v : PVal) (valid : List Int) : Bool :=
  match v with
  | PVal.i n => decide (n ∈ valid)
  | _ => false

/-- The column transformations of clean_orders applied to one row (the
branch where the order_timestamp column exists, as every input produced by
the generator does; order_value is untouched here and recomputed later). -/
def orderTransform (r : OrderRow) : OrderRow where
  order_id := toNumericInt64 r.order_id
  customer_id := toNumericInt64 r.customer_id
  product_id := toNumericInt64 r.product_id
  quantity := quantityClean r.quantity
  order_timestamp := parse_date_safe r.order_timestamp
  payment_method := PVal.s (pyTitle (pyStr r.payment_method))
  status := PVal.s (pyTitle (pyStr r.status))
  shipping_city := titleReplace r.shipping_city
  order_value := r.order_value

/-- Multiplication of a price cell by a quantity cell, as the Python product
inside compute_value: NaN propagates, numbers multiply. -/
def pvMul (a b : PVal) : PVal :=
  match a, b with
  | PVal.f x, PVal.i n => PVal.f (x * (n : Rat))
  | PVal.i m, PVal.i n => PVal.i (m * n)
  | PVal.f x, PVal.f y => PVal.f (x * y)
  | _, _ => PVal.nan

/-- compute_value from the source: look the product id up in the price map
(None when absent, giving NaN) and money_round the price times quantity.
The filtered rows reaching it always carry an integer product_id. -/
def computeValue (pm : List (Int × PVal)) (r : OrderRow) : PVal :=
  match r.product_id with
  | PVal.i pid =>
    match List.lookup pid pm with
    | some price => money_round (pvMul price r.quantity)
    | none => PVal.nan
  | _ => PVal.nan

/-- Overwrite order_value with the computed value. -/
def setValue (pm : List (Int × PVal)) (r : OrderRow) : OrderRow :=
  { r with order_value := computeValue pm r }

/-- Backfill a missing order_timestamp with the current UTC instant, which
the model receives as the explicit parameter now. -/
def fillTS (now : Timestamp) (r : OrderRow) : OrderRow :=
  { r with order_timestamp := if isNAb r.order_timestamp then PVal.ts now else r.order_timestamp }

/-- clean_orders from the source: transform the columns, filter to rows whose
customer_id is in the valid customer set and then to rows whose product_id
is in the valid product set, compute order_value, backfill missing
timestamps with now, sort by order_timestamp ascending (ties kept in input
order, as for the customer sort), keep the first row per order_id. -/
def clean_orders (df : List OrderRow) (vc vp : List Int)
    (pm : List (Int × PVal)) (now : Timestamp) : List OrderRow :=
  dedupFirst OrderRow.order_id
    (List.insertionSort orderLe
      (((((df.map orderTransform).filter (fun r => idInb r.customer_id vc)).filter
          (fun r => idInb r.product_id vp)).map (setValue pm)).map (fillTS now)))

/-- Sort key of the pipeline claimed in the specification sentence under
scrutiny for the customer sort: absent dates before all present dates (one
more than the encoding keeps an actual timestamp above the zero reserved for
NaT). -/
def dateRankAbsentFirst (v : PVal) : Nat :=
  match v with
  | PVal.ts t => t.enc + 1
  | _ => 0

/-- Row comparison of the claimed customer sort (absent dates first). -/
def custLeClaimed (a b : CustRow) : Prop :=
  dateRankAbsentFirst a.signup_date ≤ dateRankAbsentFirst b.signup_date

instance : DecidableRel custLeClaimed :=
  fun a b => inferInstanceAs (Decidable (dateRankAbsentFirst a.signup_date ≤ dateRankAbsentFirst b.signup_date))

/-- Modelled from the spec sentence being checked: the customer cleaning
pipeline as the claim states it, identical to clean_customers except that
the sort places absent signup dates before all present dates. -/
def clean_customers_claimed (df : List CustRow) : List CustRow :=
  dedupFirst custDupKey
    (List.insertionSort custLeClaimed ((df.map custTransform).filter custKeptb))

/-- The month period cell that analytics derives from an order timestamp
(to_period of NaT is NaT). -/
def monthCell (v : PVal) : PVal :=
  match v with
  | PVal.ts t => PVal.s (padNum 4 t.year ++ "-" ++ padNum 2 t.month)
  | _ => PVal.naT

/-- The post-call state and computed aggregates of the analytics function.
The three table fields hold the rows of the arguments after the call; the
ordersMonthCol field holds the month column the function assigns onto the
orders table in place when at least one order_timestamp is present (None
when it leaves the orders table without that column).  The printed group-by
reports read the tables without changing them and are abstracted to the
counts retained here. -/
structure AnalyticsResult where
  customersOut : List CustRow
  productsOut : List ProdRow
  ordersOut : List OrderRow
  ordersMonthCol : Option (List PVal)
  nCustomers : Nat
  nProducts : Nat
  nOrders : Nat
  missingPrice : Nat
deriving DecidableEq

/-- analytics from the source: prints counts, the count of products missing a
price and two group-by reports; reads cust and prod only; assigns a month
column onto ords in place when any order_timestamp is present. -/
def analytics (cust : List CustRow) (prod : List ProdRow) (ords : List OrderRow) :
    AnalyticsResult where
  customersOut := cust
  productsOut := prod
  ordersOut := ords
  ordersMonthCol :=
    if ords.any (fun r => !isNAb r.order_timestamp) then
      some (ords.map (fun r => monthCell r.order_timestamp))
    else none
  nCustomers := cust.length
  nProducts := prod.length
  nOrders := ords.length
  missingPrice := (prod.filter (fun r => isNAb r.price)).length

/-- CSV-shaped cell: the reader of the source produces, for every cell, either
the float NaN missing marker or a nonempty string. -/
def csvCellb : PVal → Bool
  | PVal.nan => true
  | PVal.s w => !(decide (w = ""))
  | _ => false

/-
  The Batteries rational operations are irreducible by default; the concrete
  evaluations below go through the kernel, so they are unsealed here.
-/
unseal Rat.mul Rat.inv Rat.add Rat.sub

/-
  Generic lemmas about the first-occurrence deduplication.
-/

theorem dedupFirstAux_sublist {α κ : Type} (key : α → κ) [DecidableEq κ] :
    ∀ (seen : List κ) (l : List α), (dedupFirstAux key seen l).Sublist l := by
  intro seen l
  induction l generalizing seen with
  | nil => simp [dedupFirstAux]
  | cons x xs ih =>
    by_cases h : key x ∈ seen
    · simpa [dedupFirstAux, h] using List.Sublist.cons x (ih seen)
    · simpa [dedupFirstAux, h] using List.Sublist.cons₂ x (ih (key x :: seen))

theorem mem_of_mem_dedupFirstAux {α κ : Type} {key : α → κ} [DecidableEq κ]
    {seen : List κ} {l : List α} {x : α} (h : x ∈ dedupFirstAux key seen l) : x ∈ l :=
  (dedupFirstAux_sublist key seen l).mem h

theorem mem_of_mem_dedupFirst {α κ : Type} {key : α → κ} [DecidableEq κ]
    {l : List α} {x : α} (h : x ∈ dedupFirst key l) : x ∈ l :=
  mem_of_mem_dedupFirstAux h

theorem dedupFirstAux_keys {α κ : Type} (key : α → κ) [DecidableEq κ] :
    ∀ (seen : List κ) (l : List α),
      ((dedupFirstAux key seen l).map key).Nodup ∧
        ∀ k ∈ (dedupFirstAux key seen l).map key, k ∉ seen := by
  intro seen l
  induction l generalizing seen with
  | nil => simp [dedupFirstAux]
  | cons x xs ih =>
    by_cases h : key x ∈ seen
    · simpa [dedupFirstAux, h] using ih seen
    · have hrec := ih (key x :: seen)
      refine ⟨?_, ?_⟩
      · simp only [dedupFirstAux, if_neg h, List.map_cons, List.nodup_cons]
        exact ⟨fun hk => (hrec.2 _ hk) (List.mem_cons_self _ _), hrec.1⟩
      · intro k hk
        simp only [dedupFirstAux, if_neg h, List.map_cons, List.mem_cons] at hk
        rcases hk with rfl | hk
        · exact h
        · exact fun hks => (hrec.2 _ hk) (List.mem_cons_of_mem _ hks)

theorem dedupFirst_keys_nodup {α κ : Type} (key : α → κ) [DecidableEq κ] (l : List α) :
    ((dedupFirst key l).map key).Nodup :=
  (dedupFirstAux_keys key [] l).1

theorem dedupFirstAux_eq_self {α κ : Type} (key : α → κ) [DecidableEq κ] :
    ∀ (seen : List κ) (l : List α), (l.map key).Nodup →
      (∀ x ∈ l, key x ∉ seen) → dedupFirstAux key seen l = l := by
  intro seen l
  induction l generalizing seen with
  | nil => intro _ _; rfl
  | cons x xs ih =>
    intro hnd hout
    simp only [List.map_cons, List.nodup_cons] at hnd
    have hx : key x ∉ seen := hout x (List.mem_cons_self _ _)
    simp only [dedupFirstAux, if_neg hx]
    refine congrArg (x :: ·) (ih (key x :: seen) hnd.2 ?_)
    intro y hy
    simp only [List.mem_cons, not_or]
    exact ⟨fun he => hnd.1 (he ▸ List.mem_map_of_mem key hy),
      hout y (List.mem_cons_of_mem _ hy)⟩

theorem dedupFirst_eq_self {α κ : Type} (key : α → κ) [DecidableEq κ] (l : List α)
    (h : (l.map key).Nodup) : dedupFirst key l = l :=
  dedupFirstAux_eq_self key [] l h (by simp)

theorem dedupFirstAux_eq_firstOcc {α κ : Type} (key : α → κ) [DecidableEq κ] :
    ∀ (seen : List κ) (l : List α),
      dedupFirstAux key seen l = firstOcc key (l.filter (fun y => decide (key y ∉ seen))) := by
  intro seen l
  induction l generalizing seen with
  | nil => simp [dedupFirstAux, firstOcc]
  | cons x xs ih =>
    by_cases h : key x ∈ seen
    · simp only [dedupFirstAux, if_pos h, List.filter_cons, decide_eq_true_eq]
      rw [if_neg (by simpa using h)]
      exact ih seen
    · simp only [dedupFirstAux, if_neg h, List.filter_cons, decide_eq_true_eq]
      rw [if_pos (by simpa using h), firstOcc]
      refine congrArg (x :: ·) ?_
      rw [ih (key x :: seen), List.filter_filter]
      refine congrArg (firstOcc key) (List.filter_congr ?_)
      intro y _
      simp [List.mem_cons, not_or, and_comm]

theorem dedupFirst_eq_firstOcc {α κ : Type} (key : α → κ) [DecidableEq κ] (l : List α) :
    dedupFirst key l = firstOcc key l := by
  rw [dedupFirst, dedupFirstAux_eq_firstOcc]
  refine congrArg (firstOcc key) ?_
  simp

theorem countP_le_one_of_nodup_keys {α κ : Type} {key : α → κ} {c : κ}
    {p : α → Bool} (hpk : ∀ x, p x = true → key x = c) :
    ∀ {l : List α}, ((l.map key).Nodup) → l.countP p ≤ 1 := by
  intro l
  induction l with
  | nil => intro _; simp
  | cons x xs ih =>
    intro hnd
    simp only [List.map_cons, List.nodup_cons] at hnd
    rw [List.countP_cons]
    by_cases hx : p x = true
    · have hzero : xs.countP p = 0 := by
        rw [List.countP_eq_zero]
        intro y hy hpy
        have h1 : key y = c := hpk y hpy
        have h2 : key x = c := hpk x hx
        refine hnd.1 ?_
        rw [h2, ← h1]
        exact List.mem_map_of_mem key hy
      simp [hx, hzero]
    · simpa [hx] using ih hnd.2

/-
  Character and string lemmas for the title-casing and stripping operations.
-/

theorem toNat_ofNat_valid {n : Nat} (h : n < 55296) : (Char.ofNat n).toNat = n := by
  unfold Char.ofNat
  rw [dif_pos (Or.inl h)]
  rfl

theorem upChar_eq_of {c : Char} (h : 97 ≤ c.toNat ∧ c.toNat ≤ 122) :
    upChar c = Char.ofNat (c.toNat - 32) := by
  unfold upChar
  rw [if_pos h]

theorem upChar_eq_self {c : Char} (h : ¬(97 ≤ c.toNat ∧ c.toNat ≤ 122)) :
    upChar c = c := by
  unfold upChar
  rw [if_neg h]

theorem lowChar_eq_of {c : Char} (h : 65 ≤ c.toNat ∧ c.toNat ≤ 90) :
    lowChar c = Char.ofNat (c.toNat + 32) := by
  unfold lowChar
  rw [if_pos h]

theorem lowChar_eq_self {c : Char} (h : ¬(65 ≤ c.toNat ∧ c.toNat ≤ 90)) :
    lowChar c = c := by
  unfold lowChar
  rw [if_neg h]

theorem toNat_upChar {c : Char} (h : 97 ≤ c.toNat ∧ c.toNat ≤ 122) :
    (upChar c).toNat = c.toNat - 32 := by
  rw [upChar_eq_of h]
  exact toNat_ofNat_valid (by omega)

theorem toNat_lowChar {c : Char} (h : 65 ≤ c.toNat ∧ c.toNat ≤ 90) :
    (lowChar c).toNat = c.toNat + 32 := by
  rw [lowChar_eq_of h]
  exact toNat_ofNat_valid (by omega)

theorem isAlphaA_upChar (c : Char) : isAlphaA (upChar c) = isAlphaA c := by
  by_cases h : 97 ≤ c.toNat ∧ c.toNat ≤ 122
  · have h1 : isAlphaA (upChar c) = true := by
      simp only [isAlphaA, toNat_upChar h, Bool.or_eq_true, Bool.and_eq_true,
        decide_eq_true_eq]
      omega
    have h2 : isAlphaA c = true := by
      simp only [isAlphaA, Bool.or_eq_true, Bool.and_eq_true, decide_eq_true_eq]
      omega
    rw [h1, h2]
  · rw [upChar_eq_self h]

theorem isAlphaA_lowChar (c : Char) : isAlphaA (lowChar c) = isAlphaA c := by
  by_cases h : 65 ≤ c.toNat ∧ c.toNat ≤ 90
  · have h1 : isAlphaA (lowChar c) = true := by
      simp only [isAlphaA, toNat_lowChar h, Bool.or_eq_true, Bool.and_eq_true,
        decide_eq_true_eq]
      omega
    have h2 : isAlphaA c = true := by
      simp only [isAlphaA, Bool.or_eq_true, Bool.and_eq_true, decide_eq_true_eq]
      omega
    rw [h1, h2]
  · rw [lowChar_eq_self h]

theorem upChar_upChar (c : Char) : upChar (upChar c) = upChar c := by
  by_cases h : 97 ≤ c.toNat ∧ c.toNat ≤ 122
  · rw [upChar_eq_of h]
    exact upChar_eq_self (by rw [toNat_ofNat_valid (n := c.toNat - 32) (by omega)]; omega)
  · rw [upChar_eq_self h, upChar_eq_self h]

theorem lowChar_lowChar (c : Char) : lowChar (lowChar c) = lowChar c := by
  by_cases h : 65 ≤ c.toNat ∧ c.toNat ≤ 90
  · rw [lowChar_eq_of h]
    exact lowChar_eq_self (by rw [toNat_ofNat_valid (n := c.toNat + 32) (by omega)]; omega)
  · rw [lowChar_eq_self h, lowChar_eq_self h]

theorem titleGo_titleGo (b : Bool) (l : List Char) :
    titleGo b (titleGo b l) = titleGo b l := by
  induction l generalizing b with
  | nil => rfl
  | cons c cs ih =>
    cases ha : isAlphaA c with
    | true =>
      cases b with
      | false => simp [titleGo, ha, isAlphaA_upChar, upChar_upChar, ih true]
      | true => simp [titleGo, ha, isAlphaA_lowChar, lowChar_lowChar, ih true]
    | false => simp [titleGo, ha, ih false]

theorem pyTitle_pyTitle (s : String) : pyTitle (pyTitle s) = pyTitle s := by
  unfold pyTitle
  exact congrArg String.mk (titleGo_titleGo false s.data)

theorem titleGo_length (b : Bool) (l : List Char) : (titleGo b l).length = l.length := by
  induction l generalizing b with
  | nil => rfl
  | cons c cs ih =>
    cases ha : isAlphaA c <;> simp [titleGo, ha, ih]

theorem pyTitle_eq_empty_iff (s : String) : pyTitle s = "" ↔ s = "" := by
  obtain ⟨l⟩ := s
  constructor
  · intro h
    have h2 : titleGo false l = [] := congrArg String.data h
    have h3 := congrArg List.length h2
    rw [titleGo_length] at h3
    simp only [List.length_nil] at h3
    have h4 : l = [] := List.length_eq_zero.mp h3
    subst h4
    rfl
  · intro h
    have h2 : l = [] := congrArg String.data h
    rw [pyTitle, h2]
    rfl

theorem trimHalf_trimHalf (l : List Char) :
    trimHalf (trimHalf l) = List.rdropWhile isSpaceA (List.dropWhile isSpaceA l) := by
  rw [trimHalf, trimHalf, List.rdropWhile]

theorem dropWhile_head_false {p : Char → Bool} :
    ∀ {l t : List Char} {a : Char}, l.dropWhile p = a :: t → p a = false := by
  intro l
  induction l with
  | nil => intro t a h; cases h
  | cons x xs ih =>
    intro t a h
    by_cases hx : p x = true
    · rw [List.dropWhile_cons, if_pos hx] at h
      exact ih h
    · rw [List.dropWhile_cons, if_neg (by simp [hx])] at h
      cases h
      simpa using hx

theorem dropWhile_rdropWhile_dropWhile (l : List Char) :
    List.dropWhile isSpaceA (List.rdropWhile isSpaceA (List.dropWhile isSpaceA l)) =
      List.rdropWhile isSpaceA (List.dropWhile isSpaceA l) := by
  cases hR : List.rdropWhile isSpaceA (List.dropWhile isSpaceA l) with
  | nil => simp
  | cons a r =>
    obtain ⟨t, ht⟩ := List.rdropWhile_prefix isSpaceA (List.dropWhile isSpaceA l)
    rw [hR, List.cons_append] at ht
    have ha : isSpaceA a = false := dropWhile_head_false ht.symm
    rw [List.dropWhile_cons, if_neg (by simp [ha])]

theorem stripA_stripA (s : String) : stripA (stripA s) = stripA s := by
  unfold stripA
  refine congrArg String.mk ?_
  show trimHalf (trimHalf (trimHalf (trimHalf s.data))) = trimHalf (trimHalf s.data)
  rw [trimHalf_trimHalf, trimHalf_trimHalf, dropWhile_rdropWhile_dropWhile,
    List.rdropWhile_idempotent]

theorem mem_dropWhile_of_not {p : Char → Bool} {x : Char} :
    ∀ {l : List Char}, x ∈ l → p x = false → x ∈ l.dropWhile p := by
  intro l
  induction l with
  | nil => intro h; cases h
  | cons a t ih =>
    intro hmem hpx
    by_cases ha : p a = true
    · rw [List.dropWhile_cons, if_pos ha]
      rcases List.mem_cons.mp hmem with rfl | ht
      · rw [ha] at hpx; cases hpx
      · exact ih ht hpx
    · rw [List.dropWhile_cons, if_neg (by simp [ha])]
      exact hmem

theorem stripA_eq_empty_imp {s : String} (h : stripA s = "") :
    ∀ c ∈ s.data, isSpaceA c = true := by
  intro c hc
  by_contra hsp
  have hsp2 : isSpaceA c = false := by
    cases hh : isSpaceA c
    · rfl
    · exact absurd hh hsp
  have hdata : trimHalf (trimHalf s.data) = [] := by
    have h2 : (stripA s).data = ("" : String).data := by rw [h]
    simpa [stripA] using h2
  rw [trimHalf_trimHalf, List.rdropWhile_eq_nil_iff] at hdata
  have hmem : c ∈ List.dropWhile isSpaceA s.data := mem_dropWhile_of_not hc hsp2
  rw [hdata c hmem] at hsp2
  cases hsp2

/-
  Arithmetic lemmas about the half-up quantization.
-/

theorem halfUpUnits_spec (y : Rat) :
    ((halfUpUnits y : Int) : Rat) ≤ y + 1/2 ∧ y + 1/2 < ((halfUpUnits y : Int) : Rat) + 1 := by
  have hd : (0 : Int) < (y.den : Int) := by exact_mod_cast y.den_pos
  have hb0 : (0 : Int) < 2 * (y.den : Int) := by omega
  have hmod1 : 0 ≤ (2 * y.num + (y.den : Int)) % (2 * (y.den : Int)) :=
    Int.emod_nonneg _ (by omega)
  have hmod2 : (2 * y.num + (y.den : Int)) % (2 * (y.den : Int)) < 2 * (y.den : Int) :=
    Int.emod_lt_of_pos _ hb0
  have hdiv := Int.ediv_add_emod (2 * y.num + (y.den : Int)) (2 * (y.den : Int))
  have hbq : (0 : Rat) < ((2 * (y.den : Int) : Int) : Rat) := by exact_mod_cast hb0
  have hyform : y + 1/2 = ((2 * y.num + (y.den : Int) : Int) : Rat) / ((2 * (y.den : Int) : Int) : Rat) := by
    have hdQ : (0 : Rat) < (y.den : Rat) := by exact_mod_cast y.den_pos
    have hden0 : ((y.den : Rat)) ≠ 0 := ne_of_gt hdQ
    have hnum2 : (y.num : Rat) = y * (y.den : Rat) :=
      (div_eq_iff hden0).mp (Rat.num_div_den y)
    push_cast
    rw [eq_div_iff (by exact ne_of_gt (by linarith : (0 : Rat) < 2 * (y.den : Rat)))]
    rw [hnum2]
    ring
  constructor
  · rw [hyform, le_div_iff₀ hbq]
    have h1 : (2 * (y.den : Int)) * halfUpUnits y ≤ 2 * y.num + (y.den : Int) := by
      unfold halfUpUnits
      linarith [hdiv, hmod1]
    calc ((halfUpUnits y : Int) : Rat) * ((2 * (y.den : Int) : Int) : Rat)
        = (((2 * (y.den : Int)) * halfUpUnits y : Int) : Rat) := by push_cast; ring
      _ ≤ ((2 * y.num + (y.den : Int) : Int) : Rat) := by exact_mod_cast h1
  · rw [hyform, div_lt_iff₀ hbq]
    have h2 : 2 * y.num + (y.den : Int) < (2 * (y.den : Int)) * (halfUpUnits y + 1) := by
      unfold halfUpUnits
      linarith [hdiv, hmod2]
    calc ((2 * y.num + (y.den : Int) : Int) : Rat)
        < (((2 * (y.den : Int)) * (halfUpUnits y + 1) : Int) : Rat) := by exact_mod_cast h2
      _ = (((halfUpUnits y : Int) : Rat) + 1) * ((2 * (y.den : Int) : Int) : Rat) := by
          push_cast; ring

theorem halfUpUnits_int (m : Int) : halfUpUnits ((m : Rat)) = m := by
  obtain ⟨h1, h2⟩ := halfUpUnits_spec ((m : Rat))
  have hle : 2 * halfUpUnits ((m : Rat)) ≤ 2 * m + 1 := by
    have : 2 * ((halfUpUnits ((m : Rat)) : Int) : Rat) ≤ 2 * (m : Rat) + 1 := by linarith
    exact_mod_cast this
  have hgt : 2 * m + 1 < 2 * halfUpUnits ((m : Rat)) + 2 := by
    have : 2 * (m : Rat) + 1 < 2 * ((halfUpUnits ((m : Rat)) : Int) : Rat) + 2 := by linarith
    exact_mod_cast this
  omega

theorem halfUpUnits_int_add_half (m : Int) :
    halfUpUnits ((m : Rat) + 1/2) = m + 1 := by
  obtain ⟨h1, h2⟩ := halfUpUnits_spec ((m : Rat) + 1/2)
  have hle : halfUpUnits ((m : Rat) + 1/2) ≤ m + 1 := by
    have : ((halfUpUnits ((m : Rat) + 1/2) : Int) : Rat) ≤ (m : Rat) + 1 := by linarith
    exact_mod_cast this
  have hgt : m < halfUpUnits ((m : Rat) + 1/2) := by
    have : (m : Rat) < ((halfUpUnits ((m : Rat) + 1/2) : Int) : Rat) := by linarith
    exact_mod_cast this
  omega

theorem halfUpUnits_nonneg {y : Rat} (h : 0 ≤ y) : 0 ≤ halfUpUnits y := by
  obtain ⟨_, h2⟩ := halfUpUnits_spec y
  by_contra hneg
  push_neg at hneg
  have hle : halfUpUnits y ≤ -1 := by omega
  have : ((halfUpUnits y : Int) : Rat) ≤ -1 := by exact_mod_cast hle
  linarith

theorem money2_zero : money2 0 = 0 := by
  rw [money2, if_neg (lt_irrefl 0)]
  have h0 : (100 : Rat) * 0 = ((0 : Int) : Rat) := by norm_num
  rw [h0, halfUpUnits_int]
  norm_num

theorem money2_int_div_100 {m : Int} (h : 0 ≤ m) :
    money2 ((m : Rat) / 100) = (m : Rat) / 100 := by
  have hmq : (0 : Rat) ≤ (m : Rat) := by exact_mod_cast h
  have hnn : (0 : Rat) ≤ (m : Rat) / 100 := by positivity
  rw [money2, if_neg (not_lt.mpr hnn)]
  have h100 : (100 : Rat) * ((m : Rat) / 100) = ((m : Int) : Rat) := by
    field_simp
  rw [h100, halfUpUnits_int]

theorem money2_money2 (q : Rat) : money2 (money2 q) = money2 q := by
  by_cases hq : q < 0
  · have hnnq : (0 : Rat) ≤ 100 * (-q) := by nlinarith
    have hm : 0 ≤ halfUpUnits (100 * (-q)) := halfUpUnits_nonneg hnnq
    have hval : money2 q = -(((halfUpUnits (100 * (-q)) : Int) : Rat) / 100) := by
      rw [money2, if_pos hq]
    rw [hval]
    rcases lt_or_eq_of_le hm with hm0 | hm0
    · have hpos : (0 : Rat) < ((halfUpUnits (100 * (-q)) : Int) : Rat) / 100 := by
        have : (0 : Rat) < ((halfUpUnits (100 * (-q)) : Int) : Rat) := by exact_mod_cast hm0
        positivity
      rw [money2, if_pos (by linarith)]
      rw [neg_neg]
      have h100 : (100 : Rat) * (((halfUpUnits (100 * (-q)) : Int) : Rat) / 100) =
          ((halfUpUnits (100 * (-q)) : Int) : Rat) := by
        field_simp
      rw [h100, halfUpUnits_int]
    · rw [← hm0]
      norm_num
      exact money2_zero
  · have hq2 : (0 : Rat) ≤ q := not_lt.mp hq
    have hnnq : (0 : Rat) ≤ 100 * q := by nlinarith
    have hm : 0 ≤ halfUpUnits (100 * q) := halfUpUnits_nonneg hnnq
    have hval : money2 q = ((halfUpUnits (100 * q) : Int) : Rat) / 100 := by
      rw [money2, if_neg hq]
    rw [hval]
    exact money2_int_div_100 hm

theorem money2_boundary {m : Int} (h : 0 ≤ m) :
    money2 ((m : Rat) / 100 + 1 / 200) = ((m + 1 : Int) : Rat) / 100 := by
  have hmq : (0 : Rat) ≤ (m : Rat) := by exact_mod_cast h
  have hnn : (0 : Rat) ≤ (m : Rat) / 100 + 1 / 200 := by positivity
  rw [money2, if_neg (not_lt.mpr hnn)]
  have h100 : (100 : Rat) * ((m : Rat) / 100 + 1 / 200) = (m : Rat) + 1/2 := by
    field_simp
    ring
  rw [h100, halfUpUnits_int_add_half]

/-
  Shape and idempotence lemmas for the cell-level transformations.
-/

attribute [ext] CustRow ProdRow OrderRow

theorem toNumericInt64_shape (v : PVal) :
    toNumericInt64 v = PVal.intNA ∨ ∃ n, toNumericInt64 v = PVal.i n := by
  rw [toNumericInt64]
  cases toNumeric v with
  | f q =>
    by_cases hq : q.den = 1
    · exact Or.inr ⟨q.num, by simp [hq]⟩
    · exact Or.inl (by simp [hq])
  | i n => exact Or.inr ⟨n, rfl⟩
  | nan => exact Or.inl rfl
  | naT => exact Or.inl rfl
  | intNA => exact Or.inl rfl
  | s w => exact Or.inl rfl
  | ts t => exact Or.inl rfl

theorem toNumericInt64_idem (v : PVal) :
    toNumericInt64 (toNumericInt64 v) = toNumericInt64 v := by
  rcases toNumericInt64_shape v with h | ⟨n, h⟩ <;> rw [h] <;> rfl

theorem quantityClean_shape (v : PVal) : ∃ n, quantityClean v = PVal.i n := by
  rw [quantityClean]
  cases toNumeric v with
  | f q => exact ⟨ratTrunc q, rfl⟩
  | i n => exact ⟨n, rfl⟩
  | nan => exact ⟨1, rfl⟩
  | naT => exact ⟨1, rfl⟩
  | intNA => exact ⟨1, rfl⟩
  | s w => exact ⟨1, rfl⟩
  | ts t => exact ⟨1, rfl⟩

theorem quantityClean_i (n : Int) : quantityClean (PVal.i n) = PVal.i n := rfl

theorem parse_date_safe_shape (v : PVal) :
    parse_date_safe v = PVal.naT ∨ ∃ t, parse_date_safe v = PVal.ts t := by
  cases v with
  | s w =>
    rw [parse_date_safe]
    split
    · exact Or.inl rfl
    · cases hp : parseISO w with
      | some t => exact Or.inr ⟨t, by simp [hp]⟩
      | none => exact Or.inl (by simp [hp])
  | ts t =>
    rw [parse_date_safe]
    split
    · exact Or.inl rfl
    · exact Or.inr ⟨t, rfl⟩
  | nan => exact Or.inl (by decide)
  | naT => exact Or.inl (by decide)
  | intNA => exact Or.inl (by decide)
  | i n =>
    refine Or.inl ?_
    rw [parse_date_safe]
    case x_1 => intro w h; cases h
    case x_2 => intro t h; cases h
    split <;> rfl
  | f q =>
    refine Or.inl ?_
    rw [parse_date_safe]
    case x_1 => intro w h; cases h
    case x_2 => intro t h; cases h
    split <;> rfl

theorem dash_mem_tsStr (t : Timestamp) : '-' ∈ (tsStr t).data := by
  rw [tsStr]
  simp only [String.data_append]
  have hd : '-' ∈ ("-" : String).data := by decide
  simp only [List.mem_append]
  tauto

theorem stripA_tsStr_ne (t : Timestamp) : stripA (tsStr t) ≠ "" := by
  intro h
  have := stripA_eq_empty_imp h '-' (dash_mem_tsStr t)
  simp [isSpaceA] at this

theorem parse_date_safe_ts (t : Timestamp) :
    parse_date_safe (PVal.ts t) = PVal.ts t := by
  rw [parse_date_safe, if_neg]
  intro h
  rcases h with h | h
  · simp [pyTruthyb] at h
  · exact stripA_tsStr_ne t h

theorem money_round_shape (v : PVal) :
    money_round v = PVal.nan ∨ ∃ q, money_round v = PVal.f (money2 q) := by
  cases v with
  | f q => exact Or.inr ⟨q, rfl⟩
  | i n => exact Or.inr ⟨(n : Rat), rfl⟩
  | s w =>
    cases hp : parseDecimal w with
    | some q => exact Or.inr ⟨q, by simp [money_round, hp]⟩
    | none => exact Or.inl (by simp [money_round, hp])
  | nan => exact Or.inl rfl
  | naT => exact Or.inl rfl
  | intNA => exact Or.inl rfl
  | ts t => exact Or.inl rfl

theorem price_step_idem (v : PVal) :
    money_round (toNumeric (money_round (toNumeric v))) = money_round (toNumeric v) := by
  rcases money_round_shape (toNumeric v) with h | ⟨q, h⟩
  · rw [h]
    rfl
  · rw [h]
    show money_round (PVal.f (money2 q)) = PVal.f (money2 q)
    rw [money_round, money2_money2]

theorem stripReplace_of_s {v : PVal} {w : String} (h : stripReplace v = PVal.s w) :
    stripA w = w ∧ w ≠ "" := by
  rw [stripReplace] at h
  by_cases hc : stripA (pyStr v) = ""
  · rw [if_pos hc] at h
    cases h
  · rw [if_neg hc] at h
    have hw : stripA (pyStr v) = w := by
      injection h
    constructor
    · rw [← hw, stripA_stripA]
    · rw [← hw]
      exact hc

theorem stripReplace_idem_of_s {v : PVal} {w : String} (h : stripReplace v = PVal.s w) :
    stripReplace (PVal.s w) = PVal.s w := by
  obtain ⟨h1, h2⟩ := stripReplace_of_s h
  rw [stripReplace]
  have hps : pyStr (PVal.s w) = w := rfl
  rw [hps, h1, if_neg h2]

theorem titleReplace_fixed {w : String} (h1 : pyTitle w = w) (h2 : w ≠ "") :
    titleReplace (PVal.s w) = PVal.s w := by
  rw [titleReplace]
  have hps : pyStr (PVal.s w) = w := rfl
  rw [hps, h1, if_neg h2]

theorem titleReplace_idem_of_csv {v : PVal} (h : csvCellb v = true) :
    titleReplace (titleReplace v) = titleReplace v := by
  cases v with
  | nan => decide
  | s w =>
    have hw : w ≠ "" := by
      simpa [csvCellb] using h
    have hps : pyStr (PVal.s w) = w := rfl
    have h1 : pyTitle w ≠ "" := fun hh => hw ((pyTitle_eq_empty_iff w).mp hh)
    have hval : titleReplace (PVal.s w) = PVal.s (pyTitle w) := by
      rw [titleReplace, hps, if_neg h1]
    rw [hval, titleReplace_fixed (pyTitle_pyTitle w) h1]
  | naT => simp [csvCellb] at h
  | intNA => simp [csvCellb] at h
  | i n => simp [csvCellb] at h
  | f q => simp [csvCellb] at h
  | ts t => simp [csvCellb] at h

theorem titleReplace_shape_of_csv {v : PVal} (h : csvCellb v = true) :
    ∃ w, titleReplace v = PVal.s w ∧ pyTitle w = w ∧ w ≠ "" := by
  cases v with
  | nan => exact ⟨"Nan", by decide⟩
  | s w =>
    have hw : w ≠ "" := by
      simpa [csvCellb] using h
    have h1 : pyTitle w ≠ "" := fun hh => hw ((pyTitle_eq_empty_iff w).mp hh)
    refine ⟨pyTitle w, ?_, pyTitle_pyTitle w, h1⟩
    rw [titleReplace]
    have hps : pyStr (PVal.s w) = w := rfl
    rw [hps, if_neg h1]
  | naT => simp [csvCellb] at h
  | intNA => simp [csvCellb] at h
  | i n => simp [csvCellb] at h
  | f q => simp [csvCellb] at h
  | ts t => simp [csvCellb] at h


/-
  Field bookkeeping for the order pipeline stages.
-/

theorem setValue_order_id (pm : List (Int × PVal)) (r : OrderRow) :
    (setValue pm r).order_id = r.order_id := rfl

theorem setValue_customer_id (pm : List (Int × PVal)) (r : OrderRow) :
    (setValue pm r).customer_id = r.customer_id := rfl

theorem setValue_product_id (pm : List (Int × PVal)) (r : OrderRow) :
    (setValue pm r).product_id = r.product_id := rfl

theorem setValue_quantity (pm : List (Int × PVal)) (r : OrderRow) :
    (setValue pm r).quantity = r.quantity := rfl

theorem setValue_order_timestamp (pm : List (Int × PVal)) (r : OrderRow) :
    (setValue pm r).order_timestamp = r.order_timestamp := rfl

theorem setValue_payment_method (pm : List (Int × PVal)) (r : OrderRow) :
    (setValue pm r).payment_method = r.payment_method := rfl

theorem setValue_status (pm : List (Int × PVal)) (r : OrderRow) :
    (setValue pm r).status = r.status := rfl

theorem setValue_shipping_city (pm : List (Int × PVal)) (r : OrderRow) :
    (setValue pm r).shipping_city = r.shipping_city := rfl

theorem setValue_order_value (pm : List (Int × PVal)) (r : OrderRow) :
    (setValue pm r).order_value = computeValue pm r := rfl

theorem fillTS_order_id (now : Timestamp) (r : OrderRow) :
    (fillTS now r).order_id = r.order_id := rfl

theorem fillTS_customer_id (now : Timestamp) (r : OrderRow) :
    (fillTS now r).customer_id = r.customer_id := rfl

theorem fillTS_product_id (now : Timestamp) (r : OrderRow) :
    (fillTS now r).product_id = r.product_id := rfl

theorem fillTS_quantity (now : Timestamp) (r : OrderRow) :
    (fillTS now r).quantity = r.quantity := rfl

theorem fillTS_payment_method (now : Timestamp) (r : OrderRow) :
    (fillTS now r).payment_method = r.payment_method := rfl

theorem fillTS_status (now : Timestamp) (r : OrderRow) :
    (fillTS now r).status = r.status := rfl

theorem fillTS_shipping_city (now : Timestamp) (r : OrderRow) :
    (fillTS now r).shipping_city = r.shipping_city := rfl

theorem fillTS_order_value (now : Timestamp) (r : OrderRow) :
    (fillTS now r).order_value = r.order_value := rfl

theorem fillTS_order_timestamp (now : Timestamp) (r : OrderRow) :
    (fillTS now r).order_timestamp =
      (if isNAb r.order_timestamp then PVal.ts now else r.order_timestamp) := rfl

theorem computeValue_congr {pm : List (Int × PVal)} {a b : OrderRow}
    (hp : a.product_id = b.product_id) (hq : a.quantity = b.quantity) :
    computeValue pm a = computeValue pm b := by
  simp only [computeValue, hp, hq]

theorem setValue_eq_self {pm : List (Int × PVal)} {r : OrderRow}
    (h : computeValue pm r = r.order_value) : setValue pm r = r := by
  cases r
  simp only [setValue]
  rw [h]

theorem fillTS_eq_self {now : Timestamp} {r : OrderRow}
    (h : isNAb r.order_timestamp = false) : fillTS now r = r := by
  cases r
  simp only [fillTS]
  simp only [OrderRow.mk.injEq] at h ⊢
  simp [h]

theorem mem_clean_orders_destruct {df : List OrderRow} {vc vp : List Int}
    {pm : List (Int × PVal)} {now : Timestamp} {r : OrderRow}
    (h : r ∈ clean_orders df vc vp pm now) :
    ∃ r0 ∈ df, r = fillTS now (setValue pm (orderTransform r0)) ∧
      idInb (orderTransform r0).customer_id vc = true ∧
      idInb (orderTransform r0).product_id vp = true := by
  rw [clean_orders] at h
  have h1 := mem_of_mem_dedupFirst h
  rw [List.mem_insertionSort] at h1
  simp only [List.mem_map, List.mem_filter] at h1
  obtain ⟨a, ⟨b, ⟨⟨⟨r0, hr0, hT⟩, hp⟩, hq⟩, hb⟩, ha⟩ := h1
  refine ⟨r0, hr0, ?_, ?_, ?_⟩
  · rw [← ha, ← hb, hT]
  · rw [hT, hp]
  · rw [hT, hq]

theorem orderTransform_order_id (r : OrderRow) :
    (orderTransform r).order_id = toNumericInt64 r.order_id := rfl

theorem orderTransform_customer_id (r : OrderRow) :
    (orderTransform r).customer_id = toNumericInt64 r.customer_id := rfl

theorem orderTransform_product_id (r : OrderRow) :
    (orderTransform r).product_id = toNumericInt64 r.product_id := rfl

theorem orderTransform_quantity (r : OrderRow) :
    (orderTransform r).quantity = quantityClean r.quantity := rfl

theorem orderTransform_order_timestamp (r : OrderRow) :
    (orderTransform r).order_timestamp = parse_date_safe r.order_timestamp := rfl

theorem orderTransform_payment_method (r : OrderRow) :
    (orderTransform r).payment_method = PVal.s (pyTitle (pyStr r.payment_method)) := rfl

theorem orderTransform_status (r : OrderRow) :
    (orderTransform r).status = PVal.s (pyTitle (pyStr r.status)) := rfl

theorem orderTransform_shipping_city (r : OrderRow) :
    (orderTransform r).shipping_city = titleReplace r.shipping_city := rfl

theorem orderTransform_order_value (r : OrderRow) :
    (orderTransform r).order_value = r.order_value := rfl

theorem out_timestamp_ts (r0 : OrderRow) (pm : List (Int × PVal)) (now : Timestamp) :
    ∃ t, (fillTS now (setValue pm (orderTransform r0))).order_timestamp = PVal.ts t := by
  rw [fillTS_order_timestamp, setValue_order_timestamp, orderTransform_order_timestamp]
  rcases parse_date_safe_shape r0.order_timestamp with hsh | ⟨t, hsh⟩
  · rw [hsh]
    exact ⟨now, rfl⟩
  · rw [hsh]
    exact ⟨t, rfl⟩

theorem orderTransform_out {r0 : OrderRow} {pm : List (Int × PVal)} {now : Timestamp}
    (hcsv : csvCellb r0.shipping_city = true) :
    orderTransform (fillTS now (setValue pm (orderTransform r0))) =
      fillTS now (setValue pm (orderTransform r0)) := by
  obtain ⟨t1, ht1⟩ := out_timestamp_ts r0 pm now
  apply OrderRow.ext
  · exact toNumericInt64_idem r0.order_id
  · exact toNumericInt64_idem r0.customer_id
  · exact toNumericInt64_idem r0.product_id
  · obtain ⟨n, hn⟩ := quantityClean_shape r0.quantity
    show quantityClean (quantityClean r0.quantity) = quantityClean r0.quantity
    rw [hn]
    rfl
  · rw [orderTransform_order_timestamp, ht1, parse_date_safe_ts]
  · show PVal.s (pyTitle (pyStr (PVal.s (pyTitle (pyStr r0.payment_method))))) =
      PVal.s (pyTitle (pyStr r0.payment_method))
    exact congrArg PVal.s (pyTitle_pyTitle (pyStr r0.payment_method))
  · show PVal.s (pyTitle (pyStr (PVal.s (pyTitle (pyStr r0.status))))) =
      PVal.s (pyTitle (pyStr r0.status))
    exact congrArg PVal.s (pyTitle_pyTitle (pyStr r0.status))
  · exact titleReplace_idem_of_csv hcsv
  · rfl

theorem clean_orders_row_props (df : List OrderRow) (vc vp : List Int)
    (pm : List (Int × PVal)) (now : Timestamp)
    (hcsv : ∀ r0 ∈ df, csvCellb r0.shipping_city = true) :
    ∀ r ∈ clean_orders df vc vp pm now,
      orderTransform r = r ∧ idInb r.customer_id vc = true ∧
        idInb r.product_id vp = true ∧ computeValue pm r = r.order_value ∧
        isNAb r.order_timestamp = false := by
  intro r hr
  obtain ⟨r0, hr0, hform, hc, hp⟩ := mem_clean_orders_destruct hr
  subst hform
  refine ⟨orderTransform_out (hcsv r0 hr0), hc, hp, computeValue_congr rfl rfl, ?_⟩
  obtain ⟨t, ht⟩ := out_timestamp_ts r0 pm now
  rw [ht]
  rfl

theorem clean_orders_idem (df : List OrderRow) (vc vp : List Int)
    (pm : List (Int × PVal)) (now : Timestamp)
    (hcsv : ∀ r0 ∈ df, csvCellb r0.shipping_city = true) :
    clean_orders (clean_orders df vc vp pm now) vc vp pm now =
      clean_orders df vc vp pm now := by
  have hprops := clean_orders_row_props df vc vp pm now hcsv
  set out := clean_orders df vc vp pm now with hout
  have hmapT : out.map orderTransform = out := by
    have h1 : out.map orderTransform = out.map id :=
      List.map_congr_left (fun a ha => (hprops a ha).1)
    rw [h1, List.map_id]
  have hfilter1 : out.filter (fun r => idInb r.customer_id vc) = out :=
    List.filter_eq_self.mpr (fun a ha => (hprops a ha).2.1)
  have hfilter2 : out.filter (fun r => idInb r.product_id vp) = out :=
    List.filter_eq_self.mpr (fun a ha => (hprops a ha).2.2.1)
  have hmapV : out.map (setValue pm) = out := by
    have h1 : out.map (setValue pm) = out.map id :=
      List.map_congr_left (fun a ha => setValue_eq_self (hprops a ha).2.2.2.1)
    rw [h1, List.map_id]
  have hmapF : out.map (fillTS now) = out := by
    have h1 : out.map (fillTS now) = out.map id :=
      List.map_congr_left (fun a ha => fillTS_eq_self (hprops a ha).2.2.2.2)
    rw [h1, List.map_id]
  have hsorted : out.Sorted orderLe := by
    rw [hout, clean_orders]
    exact List.Pairwise.sublist (dedupFirstAux_sublist _ _ _)
      (List.sorted_insertionSort orderLe _)
  have hnodup : (out.map OrderRow.order_id).Nodup := by
    rw [hout, clean_orders]
    exact dedupFirst_keys_nodup _ _
  conv_lhs => rw [clean_orders]
  rw [hmapT, hfilter1, hfilter2, hmapV, hmapF, List.Sorted.insertionSort_eq hsorted,
    dedupFirst_eq_self _ _ hnodup]

theorem prodTransform_product_id (r : ProdRow) :
    (prodTransform r).product_id = toNumericInt64 r.product_id := rfl

theorem prodTransform_product_name (r : ProdRow) :
    (prodTransform r).product_name = stripReplace r.product_name := rfl

theorem stripReplace_shape (v : PVal) :
    stripReplace v = PVal.nan ∨ ∃ w, stripReplace v = PVal.s w := by
  rw [stripReplace]
  split
  · exact Or.inl rfl
  · exact Or.inr ⟨_, rfl⟩

theorem mem_clean_products_destruct {df : List ProdRow} {r : ProdRow}
    (h : r ∈ clean_products df) :
    ∃ r0 ∈ df, r = prodTransform r0 ∧ prodKeptb (prodTransform r0) = true := by
  rw [clean_products] at h
  have h1 := mem_of_mem_dedupFirst h
  simp only [List.mem_filter, List.mem_map] at h1
  obtain ⟨⟨r0, hr0, hT⟩, hk⟩ := h1
  refine ⟨r0, hr0, hT.symm, ?_⟩
  rw [hT]
  exact hk

theorem prodTransform_out {r0 : ProdRow}
    (hcat : csvCellb r0.category = true) (hbrand : csvCellb r0.brand = true)
    (hkept : prodKeptb (prodTransform r0) = true) :
    prodTransform (prodTransform r0) = prodTransform r0 := by
  have hname : ∃ w, stripReplace r0.product_name = PVal.s w := by
    rcases stripReplace_shape r0.product_name with h | h
    · exfalso
      rw [prodKeptb, Bool.and_eq_true] at hkept
      have h2 := hkept.2
      rw [prodTransform_product_name, h] at h2
      simp [isNAb] at h2
    · exact h
  obtain ⟨w, hw⟩ := hname
  apply ProdRow.ext
  · exact toNumericInt64_idem r0.product_id
  · show stripReplace (stripReplace r0.product_name) = stripReplace r0.product_name
    rw [hw]
    exact stripReplace_idem_of_s hw
  · exact titleReplace_idem_of_csv hcat
  · exact titleReplace_idem_of_csv hbrand
  · exact price_step_idem r0.price
  · exact toNumericInt64_idem r0.stock_quantity

theorem clean_products_idem (df : List ProdRow)
    (hcsv : ∀ r0 ∈ df, csvCellb r0.category = true ∧ csvCellb r0.brand = true) :
    clean_products (clean_products df) = clean_products df := by
  have hprops : ∀ r ∈ clean_products df, prodTransform r = r ∧ prodKeptb r = true := by
    intro r hr
    obtain ⟨r0, hr0, hform, hk⟩ := mem_clean_products_destruct hr
    subst hform
    exact ⟨prodTransform_out (hcsv r0 hr0).1 (hcsv r0 hr0).2 hk, hk⟩
  set out := clean_products df with hout
  have hmapT : out.map prodTransform = out := by
    have h1 : out.map prodTransform = out.map id :=
      List.map_congr_left (fun a ha => (hprops a ha).1)
    rw [h1, List.map_id]
  have hfilter : out.filter prodKeptb = out :=
    List.filter_eq_self.mpr (fun a ha => (hprops a ha).2)
  have hnodup : (out.map ProdRow.product_id).Nodup := by
    rw [hout, clean_products]
    exact dedupFirst_keys_nodup _ _
  conv_lhs => rw [clean_products]
  rw [hmapT, hfilter, dedupFirst_eq_self _ _ hnodup]

theorem idInb_true_iff {v : PVal} {valid : List Int} :
    idInb v valid = true ↔ ∃ n, v = PVal.i n ∧ n ∈ valid := by
  cases v with
  | i n =>
    simp only [idInb, decide_eq_true_eq]
    constructor
    · intro h
      exact ⟨n, rfl, h⟩
    · rintro ⟨m, hm, hmem⟩
      injection hm with h1
      rw [h1]
      exact hmem
  | nan => simp [idInb]
  | naT => simp [idInb]
  | intNA => simp [idInb]
  | s w => simp [idInb]
  | f q => simp [idInb]
  | ts t => simp [idInb]

theorem dateRank_top_of_isNA {v : PVal} (h : isNAb v = true) : dateRank v = ⊤ := by
  cases v <;> first | rfl | (simp [isNAb] at h)

theorem custTransform_signup (r : CustRow) :
    (custTransform r).signup_date = parse_date_safe r.signup_date := rfl

theorem custTransform_email (r : CustRow) :
    (custTransform r).email = normalize_email r.email := rfl

/-
  The claims.
-/

/-- C1: for every order row that survives clean_orders, given any raw order
rows, valid customer and product id sets and price map, the row carries an
integer customer_id that is a member of the valid customer set and an integer
product_id that is a member of the valid product set. -/
theorem c1_orders_referential_integrity (df : List OrderRow) (vc vp : List Int)
    (pm : List (Int × PVal)) (now : Timestamp) (r : OrderRow)
    (hr : r ∈ clean_orders df vc vp pm now) :
    (∃ c, r.customer_id = PVal.i c ∧ c ∈ vc) ∧
      (∃ p, r.product_id = PVal.i p ∧ p ∈ vp) := by
  obtain ⟨r0, _, hform, hc, hp⟩ := mem_clean_orders_destruct hr
  subst hform
  exact ⟨idInb_true_iff.mp hc, idInb_true_iff.mp hp⟩

/-- Witness for C1: a concrete surviving order row, with its customer and
product ids in the valid sets. -/
theorem c1_witness :
    (⟨PVal.i 7, PVal.i 1, PVal.i 1, PVal.i 2, PVal.ts ⟨2024, 1, 2, 0, 0, 0⟩,
        PVal.s "Upi", PVal.s "Ok", PVal.s "Pune", PVal.f 20⟩ : OrderRow) ∈
      clean_orders
        [⟨PVal.s "7", PVal.s "1", PVal.s "1", PVal.s "2", PVal.s "2024-01-02",
          PVal.s "upi", PVal.s "ok", PVal.s "pune", PVal.nan⟩]
        [1] [1] [(1, PVal.f 10)] ⟨2024, 6, 1, 0, 0, 0⟩ ∧
    ((∃ c, (⟨PVal.i 7, PVal.i 1, PVal.i 1, PVal.i 2, PVal.ts ⟨2024, 1, 2, 0, 0, 0⟩,
        PVal.s "Upi", PVal.s "Ok", PVal.s "Pune", PVal.f 20⟩ : OrderRow).customer_id = PVal.i c ∧ c ∈ [1]) ∧
      (∃ p, (⟨PVal.i 7, PVal.i 1, PVal.i 1, PVal.i 2, PVal.ts ⟨2024, 1, 2, 0, 0, 0⟩,
        PVal.s "Upi", PVal.s "Ok", PVal.s "Pune", PVal.f 20⟩ : OrderRow).product_id = PVal.i p ∧ p ∈ [1])) :=
  ⟨by decide,
    c1_orders_referential_integrity
      [⟨PVal.s "7", PVal.s "1", PVal.s "1", PVal.s "2", PVal.s "2024-01-02",
        PVal.s "upi", PVal.s "ok", PVal.s "pune", PVal.nan⟩]
      [1] [1] [(1, PVal.f 10)] ⟨2024, 6, 1, 0, 0, 0⟩
      ⟨PVal.i 7, PVal.i 1, PVal.i 1, PVal.i 2, PVal.ts ⟨2024, 1, 2, 0, 0, 0⟩,
        PVal.s "Upi", PVal.s "Ok", PVal.s "Pune", PVal.f 20⟩
      (by decide)⟩

/-- C2: after cleaning, no two customer rows share a dedup key (email if
present, else phone if present, else name concatenated with the signup date
rendered as text), no two product rows share a product_id, and no two order
rows share an order_id. -/
theorem c2_dedup_invariants (dfc : List CustRow) (dfp : List ProdRow)
    (dfo : List OrderRow) (vc vp : List Int) (pm : List (Int × PVal))
    (now : Timestamp) :
    ((clean_customers dfc).map custDupKey).Nodup ∧
      ((clean_products dfp).map ProdRow.product_id).Nodup ∧
      ((clean_orders dfo vc vp pm now).map OrderRow.order_id).Nodup := by
  refine ⟨?_, ?_, ?_⟩
  · rw [clean_customers]
    exact dedupFirst_keys_nodup _ _
  · rw [clean_products]
    exact dedupFirst_keys_nodup _ _
  · rw [clean_orders]
    exact dedupFirst_keys_nodup _ _

/-- Counterexample for C3: on two raw customers sharing an email, one with an
absent signup date and one with a present date, the pipeline claimed in the
specification (absent dates sorted before all present dates) keeps the row
with the absent date, while clean_customers keeps the row with the present
date, because pandas sorts NaT after every present date. -/
theorem c3_counterexample :
    clean_customers_claimed
        [⟨PVal.s "1", PVal.s "A", PVal.s "e@x", PVal.nan, PVal.nan, PVal.nan, PVal.nan⟩,
         ⟨PVal.s "2", PVal.s "B", PVal.s "e@x", PVal.nan, PVal.nan, PVal.nan, PVal.s "2023-01-05"⟩] ≠
      clean_customers
        [⟨PVal.s "1", PVal.s "A", PVal.s "e@x", PVal.nan, PVal.nan, PVal.nan, PVal.nan⟩,
         ⟨PVal.s "2", PVal.s "B", PVal.s "e@x", PVal.nan, PVal.nan, PVal.nan, PVal.s "2023-01-05"⟩] ∧
    (clean_customers
        [⟨PVal.s "1", PVal.s "A", PVal.s "e@x", PVal.nan, PVal.nan, PVal.nan, PVal.nan⟩,
         ⟨PVal.s "2", PVal.s "B", PVal.s "e@x", PVal.nan, PVal.nan, PVal.nan, PVal.s "2023-01-05"⟩]).map
        CustRow.customer_id = [PVal.i 2] ∧
    (clean_customers_claimed
        [⟨PVal.s "1", PVal.s "A", PVal.s "e@x", PVal.nan, PVal.nan, PVal.nan, PVal.nan⟩,
         ⟨PVal.s "2", PVal.s "B", PVal.s "e@x", PVal.nan, PVal.nan, PVal.nan, PVal.s "2023-01-05"⟩]).map
        CustRow.customer_id = [PVal.i 1] := by
  refine ⟨by decide, by decide, by decide⟩

/-- C3 (amended): after dropping rows with absent customer_id or name, the
remaining rows are sorted by signup_date ascending with absent dates placed
AFTER all present dates (pandas default na_position last), each row keeps the
dedup key email-else-phone-else-name-and-date, and exactly the first row per
dedup key in that sorted order is kept: clean_customers equals the
keep-first-occurrence recursion over a sorted permutation of the kept rows,
the sorted list is ordered by the date rank, and in it no row with an absent
date precedes a row with a present date. -/
theorem c3_customers_sort_dedup_amended (df : List CustRow) :
    clean_customers df =
      firstOcc custDupKey
        (List.insertionSort custLe ((df.map custTransform).filter custKeptb)) ∧
      (List.insertionSort custLe ((df.map custTransform).filter custKeptb)).Perm
        ((df.map custTransform).filter custKeptb) ∧
      (List.insertionSort custLe ((df.map custTransform).filter custKeptb)).Sorted custLe ∧
      (List.insertionSort custLe ((df.map custTransform).filter custKeptb)).Pairwise
        (fun a b => isNAb a.signup_date = true → isNAb b.signup_date = true) := by
  refine ⟨?_, List.perm_insertionSort custLe _, List.sorted_insertionSort custLe _, ?_⟩
  · rw [clean_customers, dedupFirst_eq_firstOcc]
  · have hsorted := List.sorted_insertionSort custLe ((df.map custTransform).filter custKeptb)
    refine List.Pairwise.imp_of_mem ?_ hsorted
    intro a b ha hb hle hNAa
    have hb2 : b.signup_date = PVal.naT ∨ ∃ t, b.signup_date = PVal.ts t := by
      rw [List.mem_insertionSort] at hb
      simp only [List.mem_filter, List.mem_map] at hb
      obtain ⟨⟨r0, _, hT⟩, _⟩ := hb
      rw [← hT, custTransform_signup]
      exact parse_date_safe_shape r0.signup_date
    have hrank : dateRank a.signup_date = ⊤ := dateRank_top_of_isNA hNAa
    rw [custLe, hrank] at hle
    have htop : dateRank b.signup_date = ⊤ := top_le_iff.mp hle
    rcases hb2 with h | ⟨t, h⟩
    · rw [h]
      rfl
    · rw [h] at htop
      exact absurd htop (by simp [dateRank])

/-- C4: the CSV reader turns a blank, NA or NaN cell into the float NaN
missing marker; normalize_email applied to that marker returns the string
nan (while a genuinely empty string returns the missing marker); hence in
clean_customers a row whose raw email was a null marker gets the non-absent
email nan, its dedup key is the string nan rather than falling through to
phone or name-and-date, and at most one such customer survives the
deduplication. -/
theorem c4_nan_email_dedup (u : String) (r : CustRow) (df : List CustRow) :
    ((u = "" ∨ u = "NA" ∨ u = "NaN") → safeReadCell u = PVal.nan) ∧
      normalize_email PVal.nan = PVal.s "nan" ∧
      normalize_email (PVal.s "") = PVal.nan ∧
      (r.email = PVal.nan →
        (custTransform r).email = PVal.s "nan" ∧
          custDupKey (custTransform r) = PVal.s "nan") ∧
      (clean_customers df).countP (fun x => decide (x.email = PVal.s "nan")) ≤ 1 := by
  refine ⟨?_, by decide, by decide, ?_, ?_⟩
  · intro h
    rw [safeReadCell, if_pos h]
  · intro he
    have h1 : (custTransform r).email = PVal.s "nan" := by
      rw [custTransform_email, he]
      decide
    refine ⟨h1, ?_⟩
    rw [custDupKey, h1]
    rfl
  · refine @countP_le_one_of_nodup_keys CustRow PVal custDupKey (PVal.s "nan")
      (fun x => decide (x.email = PVal.s "nan")) ?_ (clean_customers df) ?_
    · intro x hx
      rw [decide_eq_true_eq] at hx
      rw [custDupKey, hx]
      rfl
    · rw [clean_customers]
      exact dedupFirst_keys_nodup _ _

/-- Witness for C4: the marker produced for the cell text NA, a concrete row
with a missing email, and a concrete two-row frame both of whose rows carry a
missing email, of which at most one survives. -/
theorem c4_witness :
    safeReadCell "NA" = PVal.nan ∧
      ((⟨PVal.s "1", PVal.s "A", PVal.nan, PVal.nan, PVal.nan, PVal.nan,
          PVal.s "2023-01-01"⟩ : CustRow).email = PVal.nan →
        (custTransform ⟨PVal.s "1", PVal.s "A", PVal.nan, PVal.nan, PVal.nan, PVal.nan,
          PVal.s "2023-01-01"⟩).email = PVal.s "nan" ∧
        custDupKey (custTransform ⟨PVal.s "1", PVal.s "A", PVal.nan, PVal.nan, PVal.nan,
          PVal.nan, PVal.s "2023-01-01"⟩) = PVal.s "nan") ∧
      (clean_customers
          [⟨PVal.s "1", PVal.s "A", PVal.nan, PVal.nan, PVal.nan, PVal.nan, PVal.s "2023-01-01"⟩,
           ⟨PVal.s "2", PVal.s "B", PVal.nan, PVal.nan, PVal.nan, PVal.nan, PVal.s "2023-01-02"⟩]).countP
        (fun x => decide (x.email = PVal.s "nan")) ≤ 1 := by
  refine ⟨?_, ?_, ?_⟩
  · exact (c4_nan_email_dedup "NA"
      ⟨PVal.s "1", PVal.s "A", PVal.nan, PVal.nan, PVal.nan, PVal.nan, PVal.s "2023-01-01"⟩
      []).1 (by decide)
  · exact (c4_nan_email_dedup "NA"
      ⟨PVal.s "1", PVal.s "A", PVal.nan, PVal.nan, PVal.nan, PVal.nan, PVal.s "2023-01-01"⟩
      []).2.2.2.1
  · exact (c4_nan_email_dedup "NA"
      ⟨PVal.s "1", PVal.s "A", PVal.nan, PVal.nan, PVal.nan, PVal.nan, PVal.s "2023-01-01"⟩
      [⟨PVal.s "1", PVal.s "A", PVal.nan, PVal.nan, PVal.nan, PVal.nan, PVal.s "2023-01-01"⟩,
       ⟨PVal.s "2", PVal.s "B", PVal.nan, PVal.nan, PVal.nan, PVal.nan, PVal.s "2023-01-02"⟩]).2.2.2.2

/-- C5: money_round on the float 2.005 returns 2.01 (half-up, not the even
rounding of bankers), money_round on the non-numeric string abc returns the
missing marker; in general money_round reads its argument as the exact
decimal its Python str rendering denotes, quantizes half-up to two decimal
places, returns the missing marker for any non-numeric string, and rounds
every exact half-cent value upward. -/
theorem c5_money_round (w : String) (q : Rat) (m : Int) :
    money_round (PVal.f (2005/1000 : Rat)) = PVal.f (201/100 : Rat) ∧
      money_round (PVal.s "abc") = PVal.nan ∧
      money_round (PVal.f q) = PVal.f (money2 q) ∧
      (parseDecimal w = none → money_round (PVal.s w) = PVal.nan) ∧
      (∀ r, parseDecimal w = some r → money_round (PVal.s w) = PVal.f (money2 r)) ∧
      (0 ≤ m → money2 ((m : Rat) / 100 + 1 / 200) = ((m + 1 : Int) : Rat) / 100) := by
  refine ⟨?_, by decide, rfl, ?_, ?_, fun hm => money2_boundary hm⟩
  · refine congrArg PVal.f ?_
    decide
  · intro h
    simp [money_round, h]
  · intro r h
    simp [money_round, h]

/-- Witness for C5: the string abc is non-numeric and maps to the missing
marker, and at the half-cent value 2.005 the general half-up statement gives
2.01. -/
theorem c5_witness :
    parseDecimal "abc" = none ∧ money_round (PVal.s "abc") = PVal.nan ∧
      (0 : Int) ≤ 200 ∧
      money2 (((200 : Int) : Rat) / 100 + 1 / 200) = (((200 : Int) + 1 : Int) : Rat) / 100 := by
  refine ⟨by decide, (c5_money_round "abc" 0 200).2.2.2.1 (by decide), by decide,
    (c5_money_round "abc" 0 200).2.2.2.2.2 (by decide)⟩

/-- Counterexample for C6: an order whose raw quantity is the string 0
survives cleaning with quantity 0, which is an integer but not positive, so
the quantity of a surviving row is not always a positive integer. -/
theorem c6_counterexample :
    ¬ ∀ r ∈ clean_orders
        [⟨PVal.s "7", PVal.s "1", PVal.s "1", PVal.s "0", PVal.s "2024-01-02",
          PVal.s "upi", PVal.s "ok", PVal.s "pune", PVal.nan⟩]
        [1] [1] [(1, PVal.f 10)] ⟨2024, 6, 1, 0, 0, 0⟩,
      ∃ n : Int, r.quantity = PVal.i n ∧ 0 < n := by
  intro h
  have h2 := h
    ⟨PVal.i 7, PVal.i 1, PVal.i 1, PVal.i 0, PVal.ts ⟨2024, 1, 2, 0, 0, 0⟩,
      PVal.s "Upi", PVal.s "Ok", PVal.s "Pune", PVal.f 0⟩ (by decide)
  obtain ⟨n, hn, hpos⟩ := h2
  injection hn with h3
  rw [← h3] at hpos
  exact absurd hpos (by decide)

/-- C6 (amended): in clean_orders the quantity of every surviving row is the
quantity cleaning of some input row, and that cleaning yields an integer in
every case: 1 when the raw cell is missing or unparseable, the parsed value
truncated toward zero when it parses as a float, and the value itself when it
is already an integer; the result is not necessarily positive. -/
theorem c6_quantity_amended (df : List OrderRow) (vc vp : List Int)
    (pm : List (Int × PVal)) (now : Timestamp) :
    (∀ r ∈ clean_orders df vc vp pm now, ∃ rr ∈ df, r.quantity = quantityClean rr.quantity) ∧
      (∀ v, toNumeric v = PVal.nan → quantityClean v = PVal.i 1) ∧
      (∀ v q, toNumeric v = PVal.f q → quantityClean v = PVal.i (ratTrunc q)) ∧
      (∀ v n, toNumeric v = PVal.i n → quantityClean v = PVal.i n) ∧
      (∀ v, ∃ n, quantityClean v = PVal.i n) := by
  refine ⟨?_, ?_, ?_, ?_, quantityClean_shape⟩
  · intro r hr
    obtain ⟨r0, hr0, hform, _, _⟩ := mem_clean_orders_destruct hr
    subst hform
    exact ⟨r0, hr0, rfl⟩
  · intro v h
    rw [quantityClean, h]
  · intro v q h
    rw [quantityClean, h]
  · intro v n h
    rw [quantityClean, h]

/-- Witness for C6: a concrete run in which the surviving quantity is the
cleaning of the raw cell, together with concrete instances of the three
cleaning cases. -/
theorem c6_witness :
    (∃ rr ∈
        [⟨PVal.s "7", PVal.s "1", PVal.s "1", PVal.s "0", PVal.s "2024-01-02",
          PVal.s "upi", PVal.s "ok", PVal.s "pune", PVal.nan⟩],
      (⟨PVal.i 7, PVal.i 1, PVal.i 1, PVal.i 0, PVal.ts ⟨2024, 1, 2, 0, 0, 0⟩,
        PVal.s "Upi", PVal.s "Ok", PVal.s "Pune", PVal.f 0⟩ : OrderRow).quantity =
        quantityClean (OrderRow.quantity rr)) ∧
      toNumeric (PVal.s "bad") = PVal.nan ∧ quantityClean (PVal.s "bad") = PVal.i 1 ∧
      toNumeric (PVal.s "2.7") = PVal.f (27/10 : Rat) ∧
      quantityClean (PVal.s "2.7") = PVal.i (ratTrunc (27/10 : Rat)) := by
  refine ⟨(c6_quantity_amended
      [⟨PVal.s "7", PVal.s "1", PVal.s "1", PVal.s "0", PVal.s "2024-01-02",
        PVal.s "upi", PVal.s "ok", PVal.s "pune", PVal.nan⟩]
      [1] [1] [(1, PVal.f 10)] ⟨2024, 6, 1, 0, 0, 0⟩).1
      ⟨PVal.i 7, PVal.i 1, PVal.i 1, PVal.i 0, PVal.ts ⟨2024, 1, 2, 0, 0, 0⟩,
        PVal.s "Upi", PVal.s "Ok", PVal.s "Pune", PVal.f 0⟩ (by decide), ?_, ?_, ?_, ?_⟩
  · decide
  · exact (c6_quantity_amended [] [] [] [] ⟨0, 0, 0, 0, 0, 0⟩).2.1 (PVal.s "bad") (by decide)
  · decide
  · exact (c6_quantity_amended [] [] [] [] ⟨0, 0, 0, 0, 0, 0⟩).2.2.1 (PVal.s "2.7")
      (27/10 : Rat) (by decide)

/-- Counterexample for C7: an order whose raw payment_method and status cells
are absent survives cleaning with the title-cased string rendering Nan of the
missing marker, not the string Unknown. -/
theorem c7_counterexample :
    (clean_orders
        [⟨PVal.s "7", PVal.s "1", PVal.s "1", PVal.s "2", PVal.s "2024-01-02",
          PVal.nan, PVal.nan, PVal.nan, PVal.nan⟩]
        [1] [1] [(1, PVal.f 10)] ⟨2024, 6, 1, 0, 0, 0⟩).map OrderRow.payment_method =
      [PVal.s "Nan"] ∧
    (clean_orders
        [⟨PVal.s "7", PVal.s "1", PVal.s "1", PVal.s "2", PVal.s "2024-01-02",
          PVal.nan, PVal.nan, PVal.nan, PVal.nan⟩]
        [1] [1] [(1, PVal.f 10)] ⟨2024, 6, 1, 0, 0, 0⟩).map OrderRow.status =
      [PVal.s "Nan"] ∧
    PVal.s "Nan" ≠ PVal.s "Unknown" := by
  refine ⟨by decide, by decide, by decide⟩

/-- C7 (amended): in clean_orders every surviving row carries the title-cased
string rendering of the raw payment_method and status cells of some input
row; when the raw cell is the missing marker the result is the string Nan
(the title-cased rendering nan of the marker), not Unknown; the column-level
Unknown default of the source only applies when the whole column is missing
from the frame, which the row model always supplies. -/
theorem c7_defaults_amended (df : List OrderRow) (vc vp : List Int)
    (pm : List (Int × PVal)) (now : Timestamp) :
    ∀ r ∈ clean_orders df vc vp pm now, ∃ rr ∈ df,
      r.payment_method = PVal.s (pyTitle (pyStr rr.payment_method)) ∧
        r.status = PVal.s (pyTitle (pyStr rr.status)) ∧
        (rr.payment_method = PVal.nan → r.payment_method = PVal.s "Nan") ∧
        (rr.status = PVal.nan → r.status = PVal.s "Nan") := by
  intro r hr
  obtain ⟨r0, hr0, hform, _, _⟩ := mem_clean_orders_destruct hr
  subst hform
  refine ⟨r0, hr0, rfl, rfl, ?_, ?_⟩
  · intro h
    show PVal.s (pyTitle (pyStr r0.payment_method)) = PVal.s "Nan"
    rw [h]
    decide
  · intro h
    show PVal.s (pyTitle (pyStr r0.status)) = PVal.s "Nan"
    rw [h]
    decide

/-- Witness for C7: a concrete run with absent payment_method and status,
whose surviving row renders both as Nan. -/
theorem c7_witness :
    ∃ rr ∈
        [⟨PVal.s "8", PVal.s "1", PVal.s "1", PVal.s "2", PVal.s "2024-01-03",
          PVal.nan, PVal.nan, PVal.nan, PVal.nan⟩],
      (⟨PVal.i 8, PVal.i 1, PVal.i 1, PVal.i 2, PVal.ts ⟨2024, 1, 3, 0, 0, 0⟩,
        PVal.s "Nan", PVal.s "Nan", PVal.s "Nan", PVal.f 20⟩ : OrderRow).payment_method =
          PVal.s (pyTitle (pyStr (OrderRow.payment_method rr))) ∧
        (⟨PVal.i 8, PVal.i 1, PVal.i 1, PVal.i 2, PVal.ts ⟨2024, 1, 3, 0, 0, 0⟩,
          PVal.s "Nan", PVal.s "Nan", PVal.s "Nan", PVal.f 20⟩ : OrderRow).status =
          PVal.s (pyTitle (pyStr (OrderRow.status rr))) ∧
        (OrderRow.payment_method rr = PVal.nan →
          (⟨PVal.i 8, PVal.i 1, PVal.i 1, PVal.i 2, PVal.ts ⟨2024, 1, 3, 0, 0, 0⟩,
            PVal.s "Nan", PVal.s "Nan", PVal.s "Nan", PVal.f 20⟩ : OrderRow).payment_method =
            PVal.s "Nan") ∧
        (OrderRow.status rr = PVal.nan →
          (⟨PVal.i 8, PVal.i 1, PVal.i 1, PVal.i 2, PVal.ts ⟨2024, 1, 3, 0, 0, 0⟩,
            PVal.s "Nan", PVal.s "Nan", PVal.s "Nan", PVal.f 20⟩ : OrderRow).status =
            PVal.s "Nan") :=
  c7_defaults_amended
    [⟨PVal.s "8", PVal.s "1", PVal.s "1", PVal.s "2", PVal.s "2024-01-03",
      PVal.nan, PVal.nan, PVal.nan, PVal.nan⟩]
    [1] [1] [(1, PVal.f 10)] ⟨2024, 6, 1, 0, 0, 0⟩
    ⟨PVal.i 8, PVal.i 1, PVal.i 1, PVal.i 2, PVal.ts ⟨2024, 1, 3, 0, 0, 0⟩,
      PVal.s "Nan", PVal.s "Nan", PVal.s "Nan", PVal.f 20⟩ (by decide)

/-- C8: every field normalizer is a total function of its cell: normalize
email and phone always return either the missing marker or a string, the
date parser always returns either NaT or a timestamp (no exception escapes a
parse failure, which lands on NaT), money rounding always returns either the
missing marker or a float, and in each failure case (unparseable date text,
non-numeric money text, a phone that neither validates nor leaves eight
digits, or whitespace-only input) the absent-value sentinel is returned. -/
theorem c8_normalizers_total (v : PVal) (w : String) :
    (normalize_email v = PVal.nan ∨ ∃ u, normalize_email v = PVal.s u) ∧
      (normalize_phone v = PVal.nan ∨ ∃ u, normalize_phone v = PVal.s u) ∧
      (parse_date_safe v = PVal.naT ∨ ∃ t, parse_date_safe v = PVal.ts t) ∧
      (money_round v = PVal.nan ∨ ∃ q, money_round v = PVal.f q) ∧
      (parseISO w = none → parse_date_safe (PVal.s w) = PVal.naT) ∧
      (parseDecimal w = none → money_round (PVal.s w) = PVal.nan) ∧
      (phonelibE164IN (phoneCleaned v) = none → (phoneDigits v).data.length < 8 →
        normalize_phone v = PVal.nan) ∧
      (stripA (pyStr v) = "" →
        normalize_email v = PVal.nan ∧ normalize_phone v = PVal.nan ∧
          parse_date_safe v = PVal.naT) := by
  refine ⟨?_, ?_, parse_date_safe_shape v, ?_, ?_, ?_, ?_, ?_⟩
  · rw [normalize_email]
    split
    · exact Or.inl rfl
    · exact Or.inr ⟨_, rfl⟩
  · rw [normalize_phone]
    split
    · exact Or.inl rfl
    · cases hlib : phonelibE164IN (phoneCleaned v) with
      | some e => exact Or.inr ⟨e, by simp [hlib]⟩
      | none =>
        by_cases hlen : 8 ≤ (phoneDigits v).data.length
        · refine Or.inr ⟨phoneDigits v, ?_⟩
          show (if 8 ≤ (phoneDigits v).data.length then PVal.s (phoneDigits v) else PVal.nan) =
            PVal.s (phoneDigits v)
          rw [if_pos hlen]
        · refine Or.inl ?_
          show (if 8 ≤ (phoneDigits v).data.length then PVal.s (phoneDigits v) else PVal.nan) =
            PVal.nan
          rw [if_neg hlen]
  · rcases money_round_shape v with h | ⟨q, h⟩
    · exact Or.inl h
    · exact Or.inr ⟨money2 q, h⟩
  · intro h
    rw [parse_date_safe]
    split
    · rfl
    · simp [h]
  · intro h
    simp [money_round, h]
  · intro h1 h2
    rw [normalize_phone]
    split
    · rfl
    · simp only [h1]
      rw [if_neg (by omega)]
  · intro h
    exact ⟨by rw [normalize_email, if_pos (Or.inr h)],
      by rw [normalize_phone, if_pos (Or.inr h)],
      by rw [parse_date_safe.eq_def, if_pos (Or.inr h)]⟩

/-- Witness for C8: the string junk fails to parse as a date and as a number
and leaves no digits for the phone fallback, and in each case the sentinel is
returned. -/
theorem c8_witness :
    parseISO "junk" = none ∧ parse_date_safe (PVal.s "junk") = PVal.naT ∧
      parseDecimal "junk" = none ∧ money_round (PVal.s "junk") = PVal.nan ∧
      phonelibE164IN (phoneCleaned (PVal.s "junk")) = none ∧
      (phoneDigits (PVal.s "junk")).data.length < 8 ∧
      normalize_phone (PVal.s "junk") = PVal.nan := by
  refine ⟨by decide, (c8_normalizers_total (PVal.s "junk") "junk").2.2.2.2.1 (by decide),
    by decide, (c8_normalizers_total (PVal.s "junk") "junk").2.2.2.2.2.1 (by decide),
    by decide, by decide,
    (c8_normalizers_total (PVal.s "junk") "junk").2.2.2.2.2.2.1 (by decide) (by decide)⟩

/-- Counterexample for C9: clean_customers is not idempotent; on two rows
whose emails are whitespace-only (absent after cleaning), a second run turns
both emails into the string nan, the two rows then share the dedup key nan,
and one of them is dropped. -/
theorem c9_counterexample :
    clean_customers (clean_customers
        [⟨PVal.s "1", PVal.s "A", PVal.s " ", PVal.nan, PVal.nan, PVal.nan, PVal.s "2023-01-01"⟩,
         ⟨PVal.s "2", PVal.s "B", PVal.s " ", PVal.nan, PVal.nan, PVal.nan, PVal.s "2023-01-02"⟩]) ≠
      clean_customers
        [⟨PVal.s "1", PVal.s "A", PVal.s " ", PVal.nan, PVal.nan, PVal.nan, PVal.s "2023-01-01"⟩,
         ⟨PVal.s "2", PVal.s "B", PVal.s " ", PVal.nan, PVal.nan, PVal.nan, PVal.s "2023-01-02"⟩] ∧
    (clean_customers
        [⟨PVal.s "1", PVal.s "A", PVal.s " ", PVal.nan, PVal.nan, PVal.nan, PVal.s "2023-01-01"⟩,
         ⟨PVal.s "2", PVal.s "B", PVal.s " ", PVal.nan, PVal.nan, PVal.nan, PVal.s "2023-01-02"⟩]).length = 2 ∧
    (clean_customers (clean_customers
        [⟨PVal.s "1", PVal.s "A", PVal.s " ", PVal.nan, PVal.nan, PVal.nan, PVal.s "2023-01-01"⟩,
         ⟨PVal.s "2", PVal.s "B", PVal.s " ", PVal.nan, PVal.nan, PVal.nan, PVal.s "2023-01-02"⟩])).length = 1 := by
  refine ⟨by decide, by decide, by decide⟩

/-- C9 (amended): clean_products and clean_orders are idempotent on inputs
whose title-cased free-text cells (category and brand, respectively
shipping_city) are absent or nonempty strings, as the CSV reader produces:
re-running on their own output, with the same valid-id sets, price map and
backfill instant, changes nothing, and in particular the timestamp backfill
does not re-trigger because every output timestamp is present;
clean_customers is not idempotent: a second run exists under which the
output changes, because rows whose cleaned email is absent acquire the email
nan and can merge. -/
theorem c9_idempotence_amended :
    (∀ dfp : List ProdRow, (∀ r ∈ dfp, csvCellb r.category = true ∧ csvCellb r.brand = true) →
        clean_products (clean_products dfp) = clean_products dfp) ∧
      (∀ (dfo : List OrderRow) (vc vp : List Int) (pm : List (Int × PVal)) (now : Timestamp),
        (∀ r ∈ dfo, csvCellb r.shipping_city = true) →
          clean_orders (clean_orders dfo vc vp pm now) vc vp pm now =
            clean_orders dfo vc vp pm now) ∧
      (∃ dfc : List CustRow,
        clean_customers (clean_customers dfc) ≠ clean_customers dfc) := by
  refine ⟨clean_products_idem, clean_orders_idem, ?_⟩
  refine ⟨[⟨PVal.s "1", PVal.s "A", PVal.s " ", PVal.nan, PVal.nan, PVal.nan, PVal.s "2023-01-01"⟩,
      ⟨PVal.s "2", PVal.s "B", PVal.s " ", PVal.nan, PVal.nan, PVal.nan, PVal.s "2023-01-02"⟩], ?_⟩
  decide

/-- Witness for C9: a concrete product table and a concrete order run on
which the second cleaning pass changes nothing. -/
theorem c9_witness :
    clean_products (clean_products
        [⟨PVal.s "1", PVal.s " Widget ", PVal.s "toys", PVal.nan, PVal.s "12.345", PVal.s "7"⟩]) =
      clean_products
        [⟨PVal.s "1", PVal.s " Widget ", PVal.s "toys", PVal.nan, PVal.s "12.345", PVal.s "7"⟩] ∧
    clean_orders (clean_orders
        [⟨PVal.s "7", PVal.s "1", PVal.s "1", PVal.s "2", PVal.s "2024-01-02",
          PVal.s "upi", PVal.s "ok", PVal.s "pune", PVal.nan⟩]
        [1] [1] [(1, PVal.f 10)] ⟨2024, 6, 1, 0, 0, 0⟩) [1] [1] [(1, PVal.f 10)]
        ⟨2024, 6, 1, 0, 0, 0⟩ =
      clean_orders
        [⟨PVal.s "7", PVal.s "1", PVal.s "1", PVal.s "2", PVal.s "2024-01-02",
          PVal.s "upi", PVal.s "ok", PVal.s "pune", PVal.nan⟩]
        [1] [1] [(1, PVal.f 10)] ⟨2024, 6, 1, 0, 0, 0⟩ :=
  ⟨c9_idempotence_amended.1
      [⟨PVal.s "1", PVal.s " Widget ", PVal.s "toys", PVal.nan, PVal.s "12.345", PVal.s "7"⟩]
      (by decide),
    c9_idempotence_amended.2.1
      [⟨PVal.s "7", PVal.s "1", PVal.s "1", PVal.s "2", PVal.s "2024-01-02",
        PVal.s "upi", PVal.s "ok", PVal.s "pune", PVal.nan⟩]
      [1] [1] [(1, PVal.f 10)] ⟨2024, 6, 1, 0, 0, 0⟩ (by decide)⟩

/-- Counterexample for C10: analytics does not leave the orders table
unchanged; on an orders table with one timestamped row it assigns a month
column onto the table in place. -/
theorem c10_counterexample :
    (analytics [] []
        [⟨PVal.i 1, PVal.i 1, PVal.i 1, PVal.i 1, PVal.ts ⟨2024, 6, 1, 0, 0, 0⟩,
          PVal.s "Upi", PVal.s "Ok", PVal.s "Pune", PVal.f 10⟩]).ordersMonthCol =
      some [PVal.s "2024-06"] ∧
    (analytics [] []
        [⟨PVal.i 1, PVal.i 1, PVal.i 1, PVal.i 1, PVal.ts ⟨2024, 6, 1, 0, 0, 0⟩,
          PVal.s "Upi", PVal.s "Ok", PVal.s "Pune", PVal.f 10⟩]).ordersMonthCol ≠ none := by
  refine ⟨by decide, by decide⟩

/-- C10 (amended): analytics leaves the customers and products tables
unchanged and does not change the rows of the orders table, but it is not
read-only on orders: it adds a month column to the orders table in place
exactly when some order_timestamp is present (and adds no column when every
order_timestamp is absent). -/
theorem c10_analytics_frame_amended (cust : List CustRow) (prod : List ProdRow)
    (ords : List OrderRow) :
    (analytics cust prod ords).customersOut = cust ∧
      (analytics cust prod ords).productsOut = prod ∧
      (analytics cust prod ords).ordersOut = ords ∧
      ((∀ r ∈ ords, isNAb r.order_timestamp = true) →
        (analytics cust prod ords).ordersMonthCol = none) ∧
      ((∃ r ∈ ords, isNAb r.order_timestamp = false) →
        (analytics cust prod ords).ordersMonthCol =
          some (ords.map (fun r => monthCell r.order_timestamp))) := by
  refine ⟨rfl, rfl, rfl, ?_, ?_⟩
  · intro h
    show (if ords.any (fun r => !isNAb r.order_timestamp) then
        some (ords.map (fun r => monthCell r.order_timestamp)) else none) = none
    rw [if_neg]
    rw [List.any_eq_true]
    rintro ⟨r, hr, hb⟩
    rw [h r hr] at hb
    cases hb
  · rintro ⟨r, hr, hb⟩
    show (if ords.any (fun r => !isNAb r.order_timestamp) then
        some (ords.map (fun r => monthCell r.order_timestamp)) else none) =
      some (ords.map (fun r => monthCell r.order_timestamp))
    rw [if_pos]
    rw [List.any_eq_true]
    exact ⟨r, hr, by rw [hb]; rfl⟩

/-- Witness for C10: on a concrete orders table with one timestamped row,
analytics returns the month column of that row. -/
theorem c10_witness :
    (analytics [] []
        [⟨PVal.i 2, PVal.i 1, PVal.i 1, PVal.i 1, PVal.ts ⟨2024, 7, 2, 0, 0, 0⟩,
          PVal.s "Upi", PVal.s "Ok", PVal.s "Pune", PVal.f 10⟩]).ordersMonthCol =
      some
        ([⟨PVal.i 2, PVal.i 1, PVal.i 1, PVal.i 1, PVal.ts ⟨2024, 7, 2, 0, 0, 0⟩,
          PVal.s "Upi", PVal.s "Ok", PVal.s "Pune", PVal.f 10⟩].map
          (fun r => monthCell (OrderRow.order_timestamp r))) :=
  (c10_analytics_frame_amended [] []
      [⟨PVal.i 2, PVal.i 1, PVal.i 1, PVal.i 1, PVal.ts ⟨2024, 7, 2, 0, 0, 0⟩,
        PVal.s "Upi", PVal.s "Ok", PVal.s "Pune", PVal.f 10⟩]).2.2.2.2
    ⟨⟨PVal.i 2, PVal.i 1, PVal.i 1, PVal.i 1, PVal.ts ⟨2024, 7, 2, 0, 0, 0⟩,
        PVal.s "Upi", PVal.s "Ok", PVal.s "Pune", PVal.f 10⟩, by decide, by decide⟩
